import Mathlib

/-!
Shallow embedding of `scripts/generate_wod.js` (crossfit-programmer).

The script is a deterministic WOD planner: a seeded RNG (mulberry32), an
input normalizer (`mergeProfile`), a fatigue analyzer (`recentContext`),
an eligibility/scoring engine (`canDoMovement` / `scoreMovement` /
`rankCandidates`) and a session assembler (`pickBest`, `buildWarmup`,
`buildStrengthOrSkillBlock`, `buildMetcon`, `buildCooldown`,
`buildScalingNotes`, `buildPlan`).

Modelling conventions:
- JS numbers that the script uses as machine integers are modelled as
  `Nat`/`Int` with explicit `% 2 ^ 32` where the code relies on 32-bit
  wrap-around (`Math.imul`, `>>>`, `| `, `^`).  Scores are sums of the
  decimal constants 3.0/1.0/2.0/4.0/1.3/0.4/2.5; they are modelled exactly,
  scaled by 10, as integers (so 1.3 becomes 13), an order-isomorphic
  representation that the kernel can evaluate.
- JS `String.prototype.trim` / `toLowerCase` are modelled by explicit
  character-list functions (`trimStr`, `lowerStr`); JS lower-cases the
  ASCII range the same way.
- JS objects holding free-form JSON are modelled by the `Json` inductive
  and association lists; JS `Map`/`Set` (insertion-ordered) are modelled
  by association lists / lists with first-insertion dedup.
- Fallible code paths (`fail(...)` throwing) are modelled with `Except`.
-/

namespace Wod

/-! ## Characters and strings: JS `trim` / `toLowerCase` -/

/-- Whitespace test used by `trim`: space (32), tab (9), newline (10),
carriage return (13), stated on code points. -/
def wsChar (c : Char) : Bool :=
  c.toNat = 32 || c.toNat = 9 || c.toNat = 10 || c.toNat = 13

/-- ASCII lower-casing of one character, as JS `toLowerCase` acts on ASCII. -/
def lowerChar (c : Char) : Char :=
  if 65 ≤ c.toNat ∧ c.toNat ≤ 90 then Char.ofNat (c.toNat + 32) else c

/-- JS `String.prototype.toLowerCase` (ASCII range). -/
def lowerStr (s : String) : String :=
  ⟨s.data.map lowerChar⟩

/-- Remove trailing whitespace of a character list. -/
def dropTrail (l : List Char) : List Char :=
  (l.reverse.dropWhile wsChar).reverse

/-- Remove leading and trailing whitespace of a character list. -/
def trimList (l : List Char) : List Char :=
  dropTrail (l.dropWhile wsChar)

/-- JS `String.prototype.trim`. -/
def trimStr (s : String) : String :=
  ⟨trimList s.data⟩

/-- The normalization `value.trim().toLowerCase()` the script applies to names,
tags and enum values. -/
def norm (s : String) : String :=
  lowerStr (trimStr s)

/-- JS `String.prototype.includes` (substring test). -/
def strIncludes (s needle : String) : Bool :=
  (s.data.tails).any (fun t => needle.data.isPrefixOf t)

/-! ## JSON values (for the untyped profile record) -/

/-- Untyped JSON-like values, as handed to the normalizer. -/
inductive Json where
  | null : Json
  | bool : Bool → Json
  | int : Int → Json
  | str : String → Json
  | arr : List Json → Json
  | obj : List (String × Json) → Json
deriving Repr

/-- `typeof x === "string"` on a JSON value. -/
def Json.isStr : Json → Bool
  | .str _ => true
  | _ => false

/-- JS falsiness of a value (`undefined` is represented as `null`). -/
def jsFalsy : Json → Bool
  | .null => true
  | .bool b => !b
  | .int n => n = 0
  | .str s => s = ""
  | .arr _ => false
  | .obj _ => false

/-- The `x || d` idiom: the value unless it is falsy, else the default. -/
def jsOr (v d : Json) : Json :=
  if jsFalsy v then d else v

mutual

/-- JS `String(value)` coercion. -/
def jsToString : Json → String
  | .null => "null"
  | .bool b => if b then "true" else "false"
  | .int n => toString n
  | .str s => s
  | .arr xs => String.intercalate "," (jsToStringItems xs)
  | .obj _ => "[object Object]"

/-- Array elements under `Array.prototype.join`: `null` renders as empty. -/
def jsToStringItems : List Json → List String
  | [] => []
  | .null :: rest => "" :: jsToStringItems rest
  | v :: rest => jsToString v :: jsToStringItems rest

end

/-- Numeric value of a decimal digit list. -/
def digitsToNat (ds : List Char) : Nat :=
  ds.foldl (fun acc c => acc * 10 + (c.toNat - 48)) 0

/-- JS `Number.parseInt(s, 10)`: skip leading whitespace, optional sign,
then the longest leading digit run; `none` models `NaN`. -/
def parseIntStr (s : String) : Option Int :=
  let t := s.data.dropWhile wsChar
  let (sign, rest) : Int × List Char :=
    match t with
    | '-' :: r => (-1, r)
    | '+' :: r => (1, r)
    | r => (1, r)
  let ds := rest.takeWhile Char.isDigit
  if ds.isEmpty then none else some (sign * (digitsToNat ds : Int))

/-- JS `Number.parseInt(value, 10)` after string coercion. -/
def jsParseInt (v : Json) : Option Int :=
  parseIntStr (jsToString v)

/-- Lookup of a key in a JS object given as an entry list (keys unique). -/
def objGet : List (String × Json) → String → Option Json
  | [], _ => none
  | (k, v) :: rest, key => if k = key then some v else objGet rest key

/-- JS `obj[k] = v`: overwrite in place if the key exists, else append. -/
def objSet : List (String × Json) → String → Json → List (String × Json)
  | [], key, v => [(key, v)]
  | (k, w) :: rest, key, v =>
      if k = key then (k, v) :: rest else (k, w) :: objSet rest key v

/-- Copy every key/value pair of `raw` into `base`, in order
(the `for (const [key, value] of Object.entries(rawProfile))` loop). -/
def objAssignAll (base : List (String × Json)) (raw : List (String × Json)) :
    List (String × Json) :=
  raw.foldl (fun acc kv => objSet acc kv.1 kv.2) base

/-! ## The seeded RNG (mulberry32) -/

/-- Reduction to an unsigned 32-bit value, as JS `>>> 0` / `ToUint32`. -/
def u32 (n : Nat) : Nat := n % 4294967296

/-- JS `Math.imul` on the 32-bit views (bit pattern of the product). -/
def imul32 (a b : Nat) : Nat := u32 (a * b)

/-- JS `x >>> k` on an already 32-bit value. -/
def shr32 (a k : Nat) : Nat := a / 2 ^ k

/-- The `SeededRng` class: state is the raw JS number `this.state`, which
grows without wrap (every read passes through `ToUint32`/`ToInt32`). -/
structure SeededRng where
  state : Nat
deriving DecidableEq, Repr

/-- Construct from a seed (`Number(seed) >>> 0`). -/
def SeededRng.ofSeed (seed : Int) : SeededRng :=
  ⟨(seed % 4294967296).toNat⟩

/-- One mulberry32 step.  Returns the final unsigned 32-bit word `t`
(the JS method returns `t / 2^32`; we keep the numerator and divide at use
sites, which is exact because the consumers multiply by small lengths). -/
def SeededRng.next (r : SeededRng) : Nat × SeededRng :=
  let s := r.state + 0x6d2b79f5
  let t0 := u32 s
  let t1 := imul32 (Nat.xor t0 (shr32 t0 15)) (t0 ||| 1)
  let t2 := Nat.xor t1 (u32 (t1 + imul32 (Nat.xor t1 (shr32 t1 7)) (t1 ||| 61)))
  let t3 := Nat.xor t2 (shr32 t2 14)
  (t3, ⟨s⟩)

/-- `Math.floor((t / 2^32) * n)` for `t < 2^32` and small `n` (exact in
IEEE doubles for the list lengths the script uses). -/
def rngIndex (t n : Nat) : Nat := t * n / 4294967296

/-- The `choice` method: `null` on an empty list, otherwise a uniform pick
advancing the state once. -/
def SeededRng.choice (r : SeededRng) (values : List α) : Option α × SeededRng :=
  match values with
  | [] => (none, r)
  | v :: rest =>
      let (t, r') := r.next
      ((v :: rest).getD (rngIndex t (rest.length + 1)) v, r') |>
        (fun p => (some p.1, p.2))

/-- Swap two positions of a list (array element swap). -/
def listSwap (l : List α) (i j : Nat) : List α :=
  match l.get? i, l.get? j with
  | some a, some b => (l.set i b).set j a
  | _, _ => l

/-- The Fisher–Yates loop body of `shuffle`, from index `idx` down to 1. -/
def SeededRng.shuffleGo (r : SeededRng) (l : List α) : Nat → List α × SeededRng
  | 0 => (l, r)
  | idx + 1 =>
      let (t, r') := r.next
      let pick := rngIndex t (idx + 2)
      SeededRng.shuffleGo r' (listSwap l (idx + 1) pick) idx

/-- The `shuffle` method (in-place Fisher–Yates, modelled functionally). -/
def SeededRng.shuffle (r : SeededRng) (l : List α) : List α × SeededRng :=
  match l.length with
  | 0 => (l, r)
  | n + 1 => r.shuffleGo l n

/-! ## Lower-cased string sets -/

/-- The `asLowerSet` helper on a string list: trim + lower-case each entry,
drop empties, dedup keeping the first occurrence (JS `Set` insertion order). -/
def asLowerSet : List String → List String
  | [] => []
  | v :: vs =>
      let n := norm v
      if n = "" then asLowerSet vs
      else n :: (asLowerSet vs).filter (fun x => x ≠ n)

/-- Extract the string payload of a JSON value, if any. -/
def Json.asStr : Json → Option String
  | .str s => some s
  | _ => none

/-- The `asLowerSet` helper on an arbitrary JSON value: non-arrays give the
empty set, non-string elements are skipped. -/
def asLowerSetJ : Json → List String
  | .arr xs => asLowerSet (xs.filterMap Json.asStr)
  | _ => []

/-- Lexicographic less-or-equal on code points, the order JS default
`Array.sort` uses on strings (UTF-16 code-unit order; identical on the
ASCII data the script handles). -/
def lexLe : List Char → List Char → Bool
  | [], _ => true
  | _ :: _, [] => false
  | a :: as, b :: bs =>
      if a.toNat < b.toNat then true
      else if b.toNat < a.toNat then false
      else lexLe as bs

/-- Insert a string in front of the first element that is not below it
(ascending insertion, modelling JS default `Array.sort` on strings). -/
def insertAsc (x : String) : List String → List String
  | [] => [x]
  | y :: ys => if lexLe x.data y.data then x :: y :: ys else y :: insertAsc x ys

/-- Ascending sort of strings (JS default `Array.sort` comparator). -/
def sortAsc : List String → List String
  | [] => []
  | x :: xs => insertAsc x (sortAsc xs)

/-- The `sortedListFromSet` helper: materialize a set as a sorted list. -/
def sortedListFromSet (values : List String) : List String :=
  sortAsc values

/-! ## Data model -/

/-- A movement library entry (the loader guarantees these field types). -/
structure Movement where
  name : String
  modality : String
  difficulty : String
  patterns : List String
  effects : List String
  equipment : List String
  variations : List String
deriving DecidableEq, Repr

/-- A history session record. -/
structure Session where
  date : Option String
  movements : List String
  patterns : List String
deriving DecidableEq, Repr

/-- The `limitations` sub-record of a normalized profile. -/
structure Limitations where
  avoid_patterns : List String
  avoid_movements : List String
deriving Repr

/-- A normalized profile.  The canonical keys are typed fields; every other
key of the raw record is carried verbatim in `extra` (the script stores them
on the same JS object). -/
structure Profile where
  goal : String
  fitness_level : String
  session_minutes : Int
  equipment_available : List String
  limitations : Limitations
  preferred_modalities : List String
  wod_type : Option String
  intensity : String
  extra : List (String × Json)
deriving Repr

/-- The `LEVEL_RANK` table (`undefined` for unknown levels). -/
def LEVEL_RANK : String → Option Nat
  | "beginner" => some 0
  | "intermediate" => some 1
  | "advanced" => some 2
  | _ => none

/-- The `WOD_TYPES` constant. -/
def WOD_TYPES : List String := ["amrap", "for_time", "emom", "chipper", "interval"]

/-- The five valid modality names. -/
def validModalities : List String :=
  ["monostructural", "gymnastics", "weightlifting", "odd-object", "recovery"]

/-- The four non-recovery default preferred modalities. -/
def defaultPreferred : List String :=
  ["monostructural", "gymnastics", "weightlifting", "odd-object"]

/-- The `DEFAULT_PROFILE` constant as the JS object it is. -/
def DEFAULT_PROFILE : List (String × Json) :=
  [ ("goal", .str "mixed"),
    ("fitness_level", .str "intermediate"),
    ("session_minutes", .int 45),
    ("equipment_available", .arr [.str "none"]),
    ("limitations", .obj [("avoid_patterns", .arr []), ("avoid_movements", .arr [])]),
    ("preferred_modalities", .arr (defaultPreferred.map Json.str)),
    ("wod_type", .null),
    ("intensity", .str "moderate") ]

/-- The canonical profile keys rewritten by the normalizer. -/
def canonicalKeys : List String :=
  [ "goal", "fitness_level", "session_minutes", "equipment_available",
    "limitations", "preferred_modalities", "wod_type", "intensity" ]

/-! ## The input normalizer (`mergeProfile`) -/

/-- Read `merged.key || fallback` coerced by `String(...)`,
then `.trim().toLowerCase()` — the enum-normalization idiom of the script. -/
def enumField (merged : List (String × Json)) (key fallback : String) : String :=
  norm (jsToString (jsOr ((objGet merged key).getD .null) (.str fallback)))

/-- The `mergeProfile` normalizer: copy the defaults, overwrite with every
raw key/value pair, then rewrite the canonical keys. -/
def mergeProfile (rawProfile : List (String × Json)) : Profile :=
  let merged := objAssignAll DEFAULT_PROFILE rawProfile
  let level := enumField merged "fitness_level" "intermediate"
  let goal := enumField merged "goal" "mixed"
  let intensity := enumField merged "intensity" "moderate"
  let parsedMinutes := jsParseInt ((objGet merged "session_minutes").getD .null)
  let sessionMinutes := parsedMinutes.getD 45
  let equipment := asLowerSetJ (jsOr ((objGet merged "equipment_available").getD .null)
    (.arr [.str "none"]))
  let equipmentWithNone := if "none" ∈ equipment then equipment else equipment ++ ["none"]
  let limitationsObj :=
    match (objGet merged "limitations").getD .null with
    | .obj fields => fields
    | _ => []
  let avoidPatterns := sortedListFromSet (asLowerSetJ
    (jsOr ((objGet limitationsObj "avoid_patterns").getD .null) (.arr [])))
  let avoidMovements := sortedListFromSet (asLowerSetJ
    (jsOr ((objGet limitationsObj "avoid_movements").getD .null) (.arr [])))
  let preferred := asLowerSetJ (jsOr ((objGet merged "preferred_modalities").getD .null)
    (.arr []))
  let preferredModalities :=
    sortedListFromSet (preferred.filter (fun m => m ∈ validModalities))
  let wodType : Option String :=
    match (objGet merged "wod_type").getD .null with
    | .str s =>
        let t := norm s
        if t ∈ WOD_TYPES then some t else none
    | _ => none
  { goal := if goal ∈ ["engine", "strength", "skill", "mixed", "power"] then goal else "mixed"
    fitness_level := if (LEVEL_RANK level).isSome then level else "intermediate"
    session_minutes := max 20 (min 120 sessionMinutes)
    equipment_available := sortedListFromSet equipmentWithNone
    limitations := { avoid_patterns := avoidPatterns, avoid_movements := avoidMovements }
    preferred_modalities :=
      if preferredModalities.length > 0 then preferredModalities else defaultPreferred
    wod_type := wodType
    intensity := if intensity ∈ ["low", "moderate", "high"] then intensity else "moderate"
    extra := merged.filter (fun kv => kv.1 ∉ canonicalKeys) }

/-! ## Movement lookup (`movementMap`) -/

/-- Lookup in the name → movement map built by `movementMap`: keys are the
trimmed lower-cased names (empty names skipped); a later entry with the same
key overwrites an earlier one, so lookup returns the last match. -/
def byNameGet (movements : List Movement) (key : String) : Option Movement :=
  (movements.filter (fun m => norm m.name ≠ "" && norm m.name = key)).getLast?

/-! ## Calendar dates (`parseIsoDate`) -/

/-- Gregorian leap-year test. -/
def isLeap (y : Nat) : Bool :=
  (y % 4 = 0 && y % 100 ≠ 0) || y % 400 = 0

/-- Days in a month of the proleptic Gregorian calendar. -/
def daysInMonth (y m : Nat) : Nat :=
  if m = 2 then (if isLeap y then 29 else 28)
  else if m ∈ [4, 6, 9, 11] then 30
  else 31

/-- Days since 1970-01-01 of a valid civil date (`Date.UTC(...) / 86400000`). -/
def daysFromCivil (y m d : Nat) : Int :=
  let yAdj := if m ≤ 2 then y - 1 else y
  let era := yAdj / 400
  let yoe := yAdj % 400
  let mp := (m + 9) % 12
  let doy := (153 * mp + 2) / 5 + d - 1
  let doe := yoe * 365 + yoe / 4 - yoe / 100 + doy
  (era * 146097 + doe : Int) - 719468

/-- The `parseIsoDate` helper: trims, matches `^\d{4}-\d{2}-\d{2}$`, then
re-checks the parts against the normalized `Date.UTC` result — which is
exactly calendar validity, with years below 100 rejected because `Date.UTC`
maps them to 1900–1999. -/
def parseIsoDate (value : String) : Option Int :=
  match trimList value.data with
  | [y1, y2, y3, y4, h1, n1, n2, h2, d1, d2] =>
      if y1.isDigit && y2.isDigit && y3.isDigit && y4.isDigit && h1 = '-' &&
          n1.isDigit && n2.isDigit && h2 = '-' && d1.isDigit && d2.isDigit then
        let y := digitsToNat [y1, y2, y3, y4]
        let m := digitsToNat [n1, n2]
        let d := digitsToNat [d1, d2]
        if 100 ≤ y && 1 ≤ m && m ≤ 12 && 1 ≤ d && d ≤ daysInMonth y m then
          some (daysFromCivil y m d)
        else none
      else none
  | _ => none

/-! ## The fatigue analyzer (`recentContext`) -/

/-- Value of a counter at a key (`counter.get(key) || 0`). -/
def cnt : List (String × Nat) → String → Nat
  | [], _ => 0
  | (k, v) :: rest, key => if k = key then v else cnt rest key

/-- The `incrementCounter` helper: `Map.set` keeps the position of an
existing key and appends a new key at the end. -/
def incrementCounter : List (String × Nat) → String → List (String × Nat)
  | [], key => [(key, 1)]
  | (k, v) :: rest, key =>
      if k = key then (k, v + 1) :: rest else (k, v) :: incrementCounter rest key

/-- Add an element to an insertion-ordered set (`Set.add`). -/
def addToSet (l : List String) (x : String) : List String :=
  if x ∈ l then l else l ++ [x]

/-- The `sessionInLookback` helper: absent or unparsable dates count as
inside the window. -/
def sessionInLookback (session : Session) (cutoffOrdinalDay : Int) : Bool :=
  match parseIsoDate (session.date.getD "") with
  | none => true
  | some d => d ≥ cutoffOrdinalDay

/-- Tally one list of pattern tags: non-empty (after trim) tags are
normalized and counted. -/
def tallyPatterns (counter : List (String × Nat)) (patterns : List String) :
    List (String × Nat) :=
  patterns.foldl
    (fun c pat => if norm pat = "" then c else incrementCounter c (norm pat)) counter

/-- Process one movement name of a session: empty names are skipped, others
are added to the recent set and their library patterns tallied. -/
def procMovementName (lib : List Movement)
    (acc : List String × List (String × Nat)) (movementName : String) :
    List String × List (String × Nat) :=
  let n := norm movementName
  if n = "" then acc
  else
    (addToSet acc.1 n,
      match byNameGet lib n with
      | some found => tallyPatterns acc.2 found.patterns
      | none => acc.2)

/-- Process one session: skipped entirely when outside the lookback window,
otherwise its movements and directly-asserted patterns contribute. -/
def procSession (lib : List Movement) (cutoff : Int)
    (acc : List String × List (String × Nat)) (session : Session) :
    List String × List (String × Nat) :=
  if sessionInLookback session cutoff then
    let acc1 := session.movements.foldl (procMovementName lib) acc
    (acc1.1, tallyPatterns acc1.2 session.patterns)
  else acc

/-- The `recentContext` fatigue analyzer.  `todayOrd` is the current day
ordinal (`todayOrdinalDay()` in the script); the cutoff is today minus the
lookback window. -/
def recentContext (todayOrd : Int) (history : List Session) (lib : List Movement)
    (lookbackDays : Nat) : List String × List (String × Nat) :=
  history.foldl (procSession lib (todayOrd - lookbackDays)) ([], [])

/-! ## Eligibility and scoring -/

/-- Difficulty rank of a movement:
`LEVEL_RANK[String(movement.difficulty || "intermediate").toLowerCase()] ?? 1`. -/
def movementLevel (m : Movement) : Nat :=
  (LEVEL_RANK (lowerStr (if m.difficulty = "" then "intermediate" else m.difficulty))).getD 1

/-- The difficulty gate of `canDoMovement`.  When the profile level is not in
`LEVEL_RANK`, the JS comparison `movementLevel > undefined + reach` is a NaN
comparison and is false, so the gate passes. -/
def levelOk (m : Movement) (profile : Profile) : Bool :=
  let reach := if profile.goal = "skill" then 1 else 0
  match LEVEL_RANK profile.fitness_level with
  | some levelRank => !(movementLevel m > levelRank + reach)
  | none => true

/-- The equipment gate: every required tag (all but `none`/`bodyweight`)
must be available. -/
def equipOk (m : Movement) (profile : Profile) : Bool :=
  (asLowerSet m.equipment).all fun item =>
    item ∈ ["none", "bodyweight"] || item ∈ asLowerSet profile.equipment_available

/-- The `canDoMovement` eligibility gate (the early returns of the script
written as a conjunction). -/
def canDoMovement (m : Movement) (profile : Profile) (recentMovements : List String) :
    Bool :=
  levelOk m profile &&
  equipOk m profile &&
  !(profile.limitations.avoid_movements.contains (norm m.name)) &&
  ((asLowerSet m.patterns).all fun pat =>
    !(profile.limitations.avoid_patterns.contains pat)) &&
  !(profile.goal = "skill" && recentMovements.contains (norm m.name))

/-- The additive `scoreMovement` desirability score.  The JS floats are
sums of the decimal constants 3.0, 1.0, 2.0, -4.0, -1.3 per fatigue count,
1.0/0.4, and -2.5; every value is here scaled by 10 and represented as an
exact integer (3.0 becomes 30, 1.3 becomes 13, 0.4 becomes 4), which
preserves all sums, comparisons, and ties. -/
def scoreMovement (m : Movement) (profile : Profile) (recentMovements : List String)
    (patternCounter : List (String × Nat)) : Int :=
  let name := norm m.name
  let modality := norm m.modality
  let effects := asLowerSet m.effects
  let patterns := asLowerSet m.patterns
  (if effects.contains profile.goal then 30 else 0)
  + (if profile.goal = "mixed" ∧ 2 ≤ effects.length then 10 else 0)
  + (if profile.preferred_modalities.contains modality then 20 else 0)
  - (if recentMovements.contains name then 40 else 0)
  - 13 * ((patterns.map (fun pat => (cnt patternCounter pat : Int))).sum)
  + (match LEVEL_RANK profile.fitness_level with
    | some levelRank =>
        if movementLevel m = levelRank then 10
        else if movementLevel m < levelRank then 4 else 0
    | none => 0)
  + (if profile.intensity = "low" then
      (if effects.contains "power" || modality = "weightlifting" then -10 else 0)
    else if profile.intensity = "high" then
      (if effects.contains "power" || effects.contains "engine" then 10 else 0)
    else 0)
  - (if modality = "recovery" then 25 else 0)

/-- Insert in front of the first element of smaller-or-equal key
(descending stable insertion). -/
def insertByDesc (key : α → Int) (x : α) : List α → List α
  | [] => [x]
  | y :: ys => if key x ≥ key y then x :: y :: ys else y :: insertByDesc key x ys

/-- Descending stable sort by an integer key, modelling the spec-mandated
stable JS `Array.sort((l, r) => r[1] - l[1])`. -/
def sortByDesc (key : α → Int) : List α → List α
  | [] => []
  | x :: xs => insertByDesc key x (sortByDesc key xs)

/-- The eligible scored candidates in library order (the loop body of
`rankCandidates` before the sort). -/
def eligibleScored (movements : List Movement) (profile : Profile)
    (recentMovements : List String) (patternCounter : List (String × Nat)) :
    List (Movement × Int) :=
  (movements.filter (fun m => canDoMovement m profile recentMovements)).map
    (fun m => (m, scoreMovement m profile recentMovements patternCounter))

/-- The `rankCandidates` engine: eligible movements scored, sorted
descending by score with ties in library order. -/
def rankCandidates (movements : List Movement) (profile : Profile)
    (recentMovements : List String) (patternCounter : List (String × Nat)) :
    List (Movement × Int) :=
  sortByDesc (fun x => x.2) (eligibleScored movements profile recentMovements patternCounter)

/-! ## Session assembler: blocks and the pick primitive -/

/-- Warm-up block (duration, movement names, prescription lines). -/
structure WarmupBlock where
  duration_min : Nat
  movements : List String
  items : List String
deriving DecidableEq, Repr

/-- Strength or skill block. -/
structure StrengthBlock where
  focus : String
  duration_min : Nat
  movement : String
  prescription : String
deriving DecidableEq, Repr

/-- Metcon block. -/
structure MetconBlock where
  type : String
  duration_min : Nat
  movements : List String
  description : String
deriving DecidableEq, Repr

/-- Cooldown block. -/
structure CooldownBlock where
  duration_min : Nat
  movements : List String
  items : List String
deriving DecidableEq, Repr

/-- One scaling note. -/
structure ScalingNote where
  movement : String
  easier : String
  harder : String
deriving DecidableEq, Repr

/-- The `context` field of a plan. -/
structure PlanContext where
  lookback_days : Nat
  recent_movements : List String
  recent_fatigue_patterns : List String
deriving DecidableEq, Repr

/-- The output `Plan` aggregate. -/
structure Plan where
  seed : Int
  profile : Profile
  context : PlanContext
  warmup : WarmupBlock
  strength_or_skill : Option StrengthBlock
  metcon : MetconBlock
  cooldown : CooldownBlock
  scaling : List ScalingNote
deriving Repr

/-- The fixed block-minute lookup table (`sessionBlockLengths`). -/
structure BlockLengths where
  warmup : Nat
  strength : Nat
  metcon : Nat
  cooldown : Nat
deriving DecidableEq, Repr

/-- Block durations by total session minutes. -/
def sessionBlockLengths (sessionMinutes : Int) : BlockLengths :=
  if sessionMinutes ≤ 30 then ⟨6, 6, 12, 4⟩
  else if sessionMinutes ≤ 45 then ⟨8, 10, 18, 6⟩
  else if sessionMinutes ≤ 60 then ⟨10, 12, 24, 8⟩
  else ⟨12, 15, 30, 10⟩

/-- The filter step of `pickBest`: drop recovery (unless allowed), used
names, and modalities outside the allowed set, preserving rank order. -/
def pickFilter (ranked : List (Movement × Int)) (usedNames : List String)
    (modalities : Option (List String)) (includeRecovery : Bool) :
    List (Movement × Int) :=
  ranked.filter fun x =>
    let name := norm x.1.name
    let modality := norm x.1.modality
    !(!includeRecovery && modality = "recovery") &&
    !(usedNames.contains name) &&
    (match modalities with
     | some ms => ms.contains modality
     | none => true)

/-- The `pickBest` primitive: filter, take the top `min(8, N)` survivors,
choose uniformly among them, record the chosen name as used. -/
def pickBest (ranked : List (Movement × Int)) (rng : SeededRng)
    (usedNames : List String) (modalities : Option (List String) := none)
    (includeRecovery : Bool := false) :
    Option Movement × SeededRng × List String :=
  match pickFilter ranked usedNames modalities includeRecovery with
  | [] => (none, rng, usedNames)
  | f :: fs =>
      let top := (f :: fs).take 8
      let (c, rng') := rng.choice top
      match c with
      | some chosen => (some chosen.1, rng', addToSet usedNames (norm chosen.1.name))
      | none => (none, rng', usedNames)

/-! ## Warm-up -/

/-- The filter of the `pickWarmup` closure inside `buildWarmup`. -/
def warmupFilter (ranked : List (Movement × Int)) (used : List String)
    (candidates : List String) : List (Movement × Int) :=
  ranked.filter fun x =>
    let name := norm x.1.name
    let modality := norm x.1.modality
    let difficulty := norm (if x.1.difficulty = "" then "intermediate" else x.1.difficulty)
    let effects := asLowerSet x.1.effects
    !(used.contains name) &&
    candidates.contains modality &&
    !((modality = "weightlifting" || modality = "odd-object") && difficulty ≠ "beginner") &&
    !(effects.contains "power" || effects.contains "mental") &&
    !(strIncludes name "burpee")

/-- The `pickWarmup` closure: warm-up-specific filtered pick, falling back
to the plain `pickBest` when the filtered pool is empty. -/
def pickWarmup (ranked : List (Movement × Int)) (rng : SeededRng)
    (used : List String) (candidates : List String) :
    Option Movement × SeededRng × List String :=
  match warmupFilter ranked used candidates with
  | [] => pickBest ranked rng used (some candidates)
  | f :: fs =>
      let top := (f :: fs).take 8
      let (c, rng') := rng.choice top
      match c with
      | some chosen => (some chosen.1, rng', addToSet used (norm chosen.1.name))
      | none => (none, rng', used)

/-- The three warm-up picks of `buildWarmup`, in order. -/
def warmupPicks (ranked : List (Movement × Int)) (rng : SeededRng)
    (used : List String) :
    (Option Movement × Option Movement × Option Movement) × SeededRng × List String :=
  let (cyc, rng1, used1) := pickWarmup ranked rng used ["monostructural"]
  let (base1, rng2, used2) := pickWarmup ranked rng1 used1 ["gymnastics", "recovery"]
  let (base2, rng3, used3) :=
    pickWarmup ranked rng2 used2 ["gymnastics", "recovery", "odd-object"]
  ((cyc, base1, base2), rng3, used3)

/-- The `buildWarmup` block builder, with the fixed fallback names for
unavailable picks. -/
def buildWarmup (ranked : List (Movement × Int)) (rng : SeededRng)
    (used : List String) (minutes : Nat) :
    WarmupBlock × SeededRng × List String :=
  let (picks, rng', used') := warmupPicks ranked rng used
  let cycName := match picks.1 with | some m => m.name | none => "easy cardio"
  let base1Name := match picks.2.1 with | some m => m.name | none => "air squat"
  let base2Name := match picks.2.2 with | some m => m.name | none => "plank"
  let easyMin := max 3 (minutes / 2)
  ({ duration_min := minutes
     movements := [cycName, base1Name, base2Name]
     items :=
       [ s!"{easyMin} min easy {cycName}",
         s!"2 rounds: 10 {base1Name}, 8 {base2Name}, 20 sec nasal breathing" ] },
    rng', used')

/-! ## Strength or skill block -/

/-- The single pick of `buildStrengthOrSkillBlock`: skipped (no pick, no
state change) for short engine sessions, otherwise a `pickBest` over the
focus modalities. -/
def strengthPick (ranked : List (Movement × Int)) (rng : SeededRng)
    (used : List String) (profile : Profile) :
    Option Movement × SeededRng × List String :=
  if profile.goal = "engine" ∧ profile.session_minutes ≤ 35 then (none, rng, used)
  else
    let modalities :=
      if profile.goal = "skill" then ["gymnastics", "weightlifting"]
      else ["weightlifting", "odd-object"]
    pickBest ranked rng used (some modalities)

/-- The `buildStrengthOrSkillBlock` builder.  Skipped for short engine
sessions; skipped (returning no block) when no candidate remains. -/
def buildStrengthOrSkillBlock (ranked : List (Movement × Int)) (rng : SeededRng)
    (used : List String) (profile : Profile) (minutes : Nat) :
    Option StrengthBlock × SeededRng × List String :=
  let focus := if profile.goal = "skill" then "skill" else "strength"
  match strengthPick ranked rng used profile with
  | (none, rng', used') => (none, rng', used')
  | (some movement, rng', used') =>
        let movementName := movement.name
        let skillMin := max 8 minutes
        let prescription :=
          if focus = "skill" then
            s!"E2MOM x {skillMin}: 2-4 quality reps {movementName} + technical drill between sets"
          else if profile.fitness_level = "beginner" then
            s!"{movementName}: 5 x 5 @ moderate load (RPE 7), rest 90 sec"
          else if profile.fitness_level = "intermediate" then
            s!"{movementName}: 5 x 3 @ challenging load (RPE 8), rest 2 min"
          else
            s!"{movementName}: 6 x 2 heavy quality reps (RPE 8-9), rest 2-3 min"
        (some { focus := focus, duration_min := minutes, movement := movementName,
                prescription := prescription }, rng', used')

/-! ## Metcon -/

/-- A `rng.choice` on a list known to be non-empty at its call sites; the
default is dead code kept only for totality. -/
def rngChoiceD (rng : SeededRng) (values : List String) (dflt : String) :
    String × SeededRng :=
  match rng.choice values with
  | (some v, rng') => (v, rng')
  | (none, rng') => (dflt, rng')

/-- The `chooseWodType` selector: an explicit (truthy) profile type wins,
otherwise a goal-weighted random choice. -/
def chooseWodType (profile : Profile) (rng : SeededRng) : String × SeededRng :=
  let fromGoal : String × SeededRng :=
    if profile.goal = "engine" then rngChoiceD rng ["interval", "amrap", "for_time"] ""
    else if profile.goal = "strength" ∨ profile.goal = "power" then
      rngChoiceD rng ["emom", "for_time", "amrap"] ""
    else if profile.goal = "skill" then rngChoiceD rng ["emom", "amrap", "interval"] ""
    else rngChoiceD rng WOD_TYPES ""
  match profile.wod_type with
  | some t => if t ≠ "" then (t, rng) else fromGoal
  | none => fromGoal

/-- The per-movement rep/distance/time prescription (`repTarget`). -/
def repTarget (movement : Movement) (level : String) : String :=
  let lname := lowerStr movement.name
  let modality := lowerStr movement.modality
  let difficulty := lowerStr (if movement.difficulty = "" then "intermediate"
    else movement.difficulty)
  if modality = "monostructural" then
    if strIncludes lname "run" then "200 m"
    else if strIncludes lname "row" || strIncludes lname "bike" ||
        strIncludes lname "ski" then "12/10 cal"
    else if strIncludes lname "double under" then "30 reps"
    else if strIncludes lname "jump rope" then "60 reps"
    else "12/10 cal"
  else if modality = "weightlifting" || modality = "odd-object" then
    if strIncludes lname "carry" then "40 m"
    else if difficulty = "advanced" then "6 reps"
    else if level = "beginner" then "8 reps"
    else "10 reps"
  else if modality = "gymnastics" then
    if difficulty = "advanced" then "6 reps"
    else if difficulty = "intermediate" then "10 reps"
    else "14 reps"
  else "45 sec"

/-- The top-up loop of `buildMetcon`: keep picking from the four active
modalities until the target count is reached or no candidate remains.
The fuel equals the remaining capacity, so it models the `while` exactly. -/
def metconTopUp (ranked : List (Movement × Int)) :
    Nat → List Movement → SeededRng → List String →
    List Movement × SeededRng × List String
  | 0, acc, rng, used => (acc, rng, used)
  | fuel + 1, acc, rng, used =>
      match pickBest ranked rng used
        (some ["monostructural", "gymnastics", "weightlifting", "odd-object"]) with
      | (some extra, rng', used') => metconTopUp ranked fuel (acc ++ [extra]) rng' used'
      | (none, rng', used') => (acc, rng', used')

/-- The movement selection of `buildMetcon`: one pick per modality group,
then top-up to the target count. -/
def metconPicks (ranked : List (Movement × Int)) (rng : SeededRng)
    (used : List String) (targetCount : Nat) :
    List Movement × SeededRng × List String :=
  let (c1, rng1, used1) := pickBest ranked rng used (some ["monostructural"])
  let acc1 := c1.toList
  let (c2, rng2, used2) := pickBest ranked rng1 used1 (some ["gymnastics"])
  let acc2 := acc1 ++ c2.toList
  let (c3, rng3, used3) := pickBest ranked rng2 used2 (some ["weightlifting", "odd-object"])
  let acc3 := acc2 ++ c3.toList
  metconTopUp ranked (targetCount - acc3.length) acc3 rng3 used3

/-- The EMOM total minute computation of `buildMetcon`: at least four
minutes per station and at least the block minutes, then rounded DOWN to a
multiple of the station count. -/
def emomTotal (stationCount minutes : Nat) : Nat :=
  let m0 := max (stationCount * 4) minutes
  m0 - m0 % stationCount

/-- The `buildMetcon` builder.  Fails the run when zero movements could be
selected. -/
def buildMetcon (ranked : List (Movement × Int)) (rng : SeededRng)
    (used : List String) (profile : Profile) (minutes : Nat) :
    Except String (MetconBlock × SeededRng × List String) :=
  let (wodType, rng0) := chooseWodType profile rng
  let targetCount : Nat := if profile.session_minutes > 45 then 4 else 3
  let (metconMovements, rng1, used1) := metconPicks ranked rng0 used targetCount
  if metconMovements.isEmpty then
    Except.error "No eligible movements remain for metcon after constraints."
  else
    let level := profile.fitness_level
    let lines := metconMovements.map fun m => s!"{repTarget m level} {m.name}"
    let joined := String.intercalate " | " lines
    let description :=
      if wodType = "amrap" then s!"{minutes}-min AMRAP: {joined}"
      else if wodType = "for_time" then
        let rounds := if metconMovements.length ≤ 3 then 4 else 3
        s!"{rounds} rounds for time: {joined}"
      else if wodType = "emom" then
        let stationCount := metconMovements.length
        let em := emomTotal stationCount minutes
        let stations := lines.enum.map fun pr =>
          let minuteIdx := pr.1 + 1
          let line := pr.2
          s!"Min {minuteIdx}: {line}"
        let stationsJoined := String.intercalate " | " stations
        s!"EMOM {em} (cycle {stationCount} stations): {stationsJoined}"
      else if wodType = "chipper" then
        let chain := String.intercalate " -> " lines
        s!"For time chipper: {chain}"
      else
        let rounds := max 4 (minutes / 3)
        s!"{rounds} rounds: 2:00 work / 1:00 rest on {joined}"
    Except.ok ({ type := wodType, duration_min := minutes,
                 movements := metconMovements.map (fun m => m.name),
                 description := description }, rng1, used1)

/-! ## Cooldown, scaling notes, fatigue summary -/

/-- The `buildCooldown` builder: shuffle the recovery movements, take two;
fixed default stretches when fewer than two exist. -/
def buildCooldown (movements : List Movement) (rng : SeededRng) (minutes : Nat) :
    CooldownBlock × SeededRng :=
  let recoveryPool := movements.filter (fun m => lowerStr m.modality = "recovery")
  let (shuffled, rng') := rng.shuffle recoveryPool
  match shuffled.take 2 with
  | [a, b] =>
      let aName := a.name
      let bName := b.name
      ({ duration_min := minutes
         movements := [aName, bName, "Down-regulation breathing"]
         items :=
           [ s!"2 x 45 sec per side {aName}",
             s!"2 x 45 sec per side {bName}",
             "2 min down-regulation breathing" ] }, rng')
  | _ =>
      ({ duration_min := minutes
         movements := ["Breathing walk", "Hip opener", "Thoracic opener"]
         items :=
           [ "2 min easy breathing walk",
             "2 x 45 sec per side hip opener",
             "2 x 45 sec thoracic opener" ] }, rng')

/-- The `buildScalingNotes` builder: for every chosen name found in the
library (lower-cased, not trimmed), first/last non-blank variation or the
fixed default texts. -/
def buildScalingNotes (chosenMovements : List String) (lib : List Movement) :
    List ScalingNote :=
  chosenMovements.filterMap fun movementName =>
    match byNameGet lib (lowerStr movementName) with
    | none => none
    | some movement =>
        let variations := movement.variations.filter (fun v => trimStr v ≠ "")
        let easier := variations.headD "Reduce reps and use controlled tempo"
        let harder := variations.getLastD "Increase load or reduce rest"
        some { movement := movementName, easier := easier, harder := harder }

/-- The `fatigueSummary` renderer: top five patterns by count. -/
def fatigueSummary (patternCounter : List (String × Nat)) : List String :=
  if patternCounter.isEmpty then []
  else
    ((sortByDesc (fun kv => (kv.2 : Int)) patternCounter).take 5).map fun kv =>
      let p := kv.1
      let c := kv.2
      s!"{p} ({c})"

/-! ## The plan builder -/

/-- The `buildPlan` core: one planning run as a pure function of
(today's ordinal day, profile, history, library, lookback window, seed). -/
def buildPlan (todayOrd : Int) (profile : Profile) (history : List Session)
    (movements : List Movement) (lookbackDays : Nat) (seed : Int) :
    Except String Plan :=
  let rng := SeededRng.ofSeed seed
  let (recentMovements, patternCounter) :=
    recentContext todayOrd history movements lookbackDays
  let ranked := rankCandidates movements profile recentMovements patternCounter
  if ranked.isEmpty then
    Except.error
      "No movements match the current equipment/level/limitations. Relax constraints and retry."
  else
    let blocks := sessionBlockLengths profile.session_minutes
    let (warmup, rng1, used1) := buildWarmup ranked rng [] blocks.warmup
    let (strengthOrSkill, rng2, used2) :=
      buildStrengthOrSkillBlock ranked rng1 used1 profile blocks.strength
    match buildMetcon ranked rng2 used2 profile blocks.metcon with
    | .error e => .error e
    | .ok (metcon, rng3, _used3) =>
        let (cooldown, _rng4) := buildCooldown movements rng3 blocks.cooldown
        let selectedForScaling := warmup.movements ++ metcon.movements ++
          (match strengthOrSkill with | some b => [b.movement] | none => [])
        Except.ok
          { seed := seed
            profile := profile
            context :=
              { lookback_days := lookbackDays
                recent_movements := sortAsc recentMovements
                recent_fatigue_patterns := fatigueSummary patternCounter }
            warmup := warmup
            strength_or_skill := strengthOrSkill
            metcon := metcon
            cooldown := cooldown
            scaling := buildScalingNotes selectedForScaling movements }

/-! ## Spec-side definitions and observation helpers

The following definitions are not translations of script code: they follow
the wording of the specification (for refinement statements) or merely
observe the structures above (for claim statements and witnesses). -/

/-- Normalized movement name, as a specification shorthand. -/
def lowName (m : Movement) : String := norm m.name

/-- Modelled from the spec (§4.3): a trimmed lower-cased tag, `none` when
blank — the tags/names the fatigue analyzer is said to collect. -/
def normName (s : String) : Option String :=
  let n := norm s
  if n = "" then none else some n

/-- Modelled from the spec (§4.3): the non-blank normalized tags of a list. -/
def normTags (l : List String) : List String := l.filterMap normName

/-- Modelled from the spec (§4.3): the non-blank normalized movement names
of one session. -/
def sessionMoveKeys (s : Session) : List String := normTags s.movements

/-- Modelled from the spec (§4.3): a session contributes iff its date is
absent, unparsable, or on/after the cutoff day (today minus the window). -/
def contributes (todayOrd : Int) (lookbackDays : Nat) (s : Session) : Bool :=
  match s.date with
  | none => true
  | some d =>
      match parseIsoDate d with
      | none => true
      | some ord => ord ≥ todayOrd - lookbackDays

/-- Modelled from the spec (§4.3): how often one performed movement (by
normalized name) tallies pattern `p` — once per matching normalized pattern
tag the library attaches to it, zero when the library does not know it. -/
def keyTally (lib : List Movement) (k p : String) : Nat :=
  match byNameGet lib k with
  | some found => (normTags found.patterns).count p
  | none => 0

/-- Modelled from the spec (§4.3): how often one contributing session
tallies pattern `p` — once per library pattern of each of its movements,
plus once per directly asserted pattern. -/
def sessionTally (lib : List Movement) (s : Session) (p : String) : Nat :=
  ((sessionMoveKeys s).map fun k => keyTally lib k p).sum
  + (normTags s.patterns).count p

/-- Whether a string list contains a repeated element. -/
def hasDupStr : List String → Bool
  | [] => false
  | x :: xs => xs.contains x || hasDupStr xs

/-- The concatenated movement-name lists of one plan, in the order
warm-up, strength/skill, metcon. -/
def allSessionNames (p : Plan) : List String :=
  p.warmup.movements ++
  (match p.strength_or_skill with | some b => [b.movement] | none => []) ++
  p.metcon.movements

/-- The last value a raw record assigns to a key (what a JS object built
from the entries would hold). -/
def rawLast : List (String × Json) → String → Option Json
  | [], _ => none
  | (k, v) :: rest, key =>
      match rawLast rest key with
      | some w => some w
      | none => if k = key then some v else none

/-! ## Concrete instances for witnesses and counterexamples -/

/-- A library movement with empty tag lists. -/
def simpleMovement (name modality difficulty : String) : Movement :=
  { name := name, modality := modality, difficulty := difficulty,
    patterns := [], effects := [], equipment := [], variations := [] }

/-- The normalized profile of an empty raw record: all defaults. -/
def defaultProfile : Profile := mergeProfile []

/-- A library whose only weightlifting movement shares its name with the
warm-up fallback "air squat". -/
def fallbackClashLib : List Movement :=
  [ simpleMovement "air squat" "weightlifting" "beginner",
    simpleMovement "bike" "monostructural" "intermediate",
    simpleMovement "row" "monostructural" "intermediate" ]

/-- A 75-minute profile with an explicit emom metcon. -/
def emomProfile : Profile :=
  mergeProfile [("session_minutes", Json.int 75), ("wod_type", Json.str "emom")]

/-- A library large enough to fill a four-station metcon. -/
def emomLib : List Movement :=
  [ simpleMovement "bike" "monostructural" "intermediate",
    simpleMovement "row" "monostructural" "intermediate",
    simpleMovement "ski" "monostructural" "intermediate",
    simpleMovement "pull up" "gymnastics" "intermediate",
    simpleMovement "push up" "gymnastics" "beginner",
    simpleMovement "sit up" "gymnastics" "beginner",
    simpleMovement "deadlift" "weightlifting" "intermediate",
    simpleMovement "back squat" "weightlifting" "intermediate" ]

/-- A two-movement library for pick witnesses. -/
def smallLib : List Movement :=
  [ simpleMovement "bike" "monostructural" "intermediate",
    simpleMovement "deadlift" "weightlifting" "intermediate" ]

/-- A library whose only movement is beyond a beginner profile. -/
def advancedOnlyLib : List Movement :=
  [ simpleMovement "muscle up" "gymnastics" "advanced" ]

/-- A beginner profile. -/
def beginnerProfile : Profile :=
  mergeProfile [("fitness_level", Json.str "beginner")]

/-- A raw profile record exercising the normalizer's fallback paths:
unparsable minutes, invalid enums, messy equipment strings, a shouted
wod type. -/
def messyRaw : List (String × Json) :=
  [ ("session_minutes", Json.str "abc"),
    ("goal", Json.str "Weird"),
    ("fitness_level", Json.int 3),
    ("intensity", Json.str "XXX"),
    ("equipment_available",
      Json.arr [Json.str " Barbell ", Json.str "barbell", Json.str "  "]),
    ("limitations", Json.obj [("avoid_patterns", Json.arr [Json.str " Push "])]),
    ("wod_type", Json.str "EMOM ") ]

/-- A raw record whose wod type is a string that is not a valid wod type
even after trimming and lower-casing. -/
def invalidWodRaw : List (String × Json) :=
  [("wod_type", Json.str " Tabata ")]

/-- A raw record whose wod type is not a string at all. -/
def nonStrWodRaw : List (String × Json) :=
  [("wod_type", Json.int 7)]

/-- A placeholder plan (only a `getD` default for extracting computed plans). -/
def dummyPlan : Plan :=
  { seed := 0
    profile := mergeProfile []
    context := { lookback_days := 0, recent_movements := [], recent_fatigue_patterns := [] }
    warmup := { duration_min := 0, movements := [], items := [] }
    strength_or_skill := none
    metcon := { type := "", duration_min := 0, movements := [], description := "" }
    cooldown := { duration_min := 0, movements := [], items := [] }
    scaling := [] }

/-- The concrete plan produced for the fallback-clash inputs. -/
def demoPlan : Plan :=
  ((buildPlan 20000 defaultProfile [] fallbackClashLib 2 1).toOption).getD dummyPlan

/-- A raw record with one non-canonical key. -/
def extraRaw : List (String × Json) :=
  [("coach_notes", Json.str "keep elbows high")]

/-- The concrete plan produced for the extra-key profile on the
fallback-clash library. -/
def planWithExtra : Plan :=
  ((buildPlan 20000 (mergeProfile extraRaw) [] fallbackClashLib 2 1).toOption).getD
    dummyPlan

/-- All movements picked for the warm-up, strength/skill and metcon blocks
of one plan-building run, with the RNG and used-name states threaded
exactly as `buildPlan` threads them through `buildWarmup`,
`buildStrengthOrSkillBlock` and `buildMetcon`. -/
def sessionPicks (ranked : List (Movement × Int)) (rng : SeededRng)
    (profile : Profile) : List Movement :=
  let (w, rng1, used1) := warmupPicks ranked rng []
  let (sMv, rng2, used2) := strengthPick ranked rng1 used1 profile
  let (_, rngW) := chooseWodType profile rng2
  let targetCount : Nat := if profile.session_minutes > 45 then 4 else 3
  let (ms, _, _) := metconPicks ranked rngW used2 targetCount
  w.1.toList ++ w.2.1.toList ++ w.2.2.toList ++ sMv.toList ++ ms

/-! # Lemmas about the stable descending sort -/

theorem mem_insertByDesc {key : α → Int} {x a : α} {l : List α} :
    a ∈ insertByDesc key x l ↔ a = x ∨ a ∈ l := by
  induction l with
  | nil => simp [insertByDesc]
  | cons y ys ih =>
      by_cases h : key x ≥ key y
      · simp [insertByDesc, h]
      · simp only [insertByDesc, if_neg h, List.mem_cons, ih]
        tauto

theorem mem_sortByDesc {key : α → Int} {a : α} {l : List α} :
    a ∈ sortByDesc key l ↔ a ∈ l := by
  induction l with
  | nil => simp [sortByDesc]
  | cons x xs ih => simp [sortByDesc, mem_insertByDesc, ih]

theorem pairwise_insertByDesc {key : α → Int} {x : α} {l : List α}
    (h : l.Pairwise (fun a b => key b ≤ key a)) :
    (insertByDesc key x l).Pairwise (fun a b => key b ≤ key a) := by
  induction l with
  | nil => simp [insertByDesc]
  | cons y ys ih =>
      rcases List.pairwise_cons.mp h with ⟨hy, hys⟩
      by_cases hk : key x ≥ key y
      · rw [insertByDesc, if_pos hk]
        refine List.pairwise_cons.mpr ⟨?_, h⟩
        intro b hb
        rcases List.mem_cons.mp hb with rfl | hb2
        · exact hk
        · exact le_trans (hy b hb2) hk
      · rw [insertByDesc, if_neg hk]
        refine List.pairwise_cons.mpr ⟨?_, ih hys⟩
        intro b hb
        rcases mem_insertByDesc.mp hb with rfl | hb2
        · exact le_of_not_ge hk
        · exact hy b hb2

theorem sorted_sortByDesc {key : α → Int} (l : List α) :
    (sortByDesc key l).Pairwise (fun a b => key b ≤ key a) := by
  induction l with
  | nil => simp [sortByDesc]
  | cons x xs ih => exact pairwise_insertByDesc ih

theorem filter_insertByDesc {key : α → Int} (q : Int) (x : α) (l : List α) :
    (insertByDesc key x l).filter (fun a => key a = q) =
      (if key x = q then [x] else []) ++ l.filter (fun a => key a = q) := by
  induction l with
  | nil => by_cases h : key x = q <;> simp [insertByDesc, h]
  | cons y ys ih =>
      by_cases hk : key x ≥ key y
      · rw [insertByDesc, if_pos hk]
        by_cases hx : key x = q <;> simp [List.filter_cons, hx]
      · rw [insertByDesc, if_neg hk]
        by_cases hy : key y = q
        · have hx : ¬ key x = q := by
            intro hx
            exact hk (le_of_eq (hy.trans hx.symm))
          simp [List.filter_cons, hy, hx, ih]
        · simp [List.filter_cons, hy, ih]

theorem filter_sortByDesc {key : α → Int} (q : Int) (l : List α) :
    (sortByDesc key l).filter (fun a => key a = q) = l.filter (fun a => key a = q) := by
  induction l with
  | nil => simp [sortByDesc]
  | cons x xs ih =>
      rw [sortByDesc, filter_insertByDesc, ih, List.filter_cons]
      by_cases hx : key x = q <;> simp [hx]

/-! # C1: determinism of the plan builder -/

/-- C1.  For every fixed input tuple (normalized profile, history, movement
library, lookback window, seed) evaluated at the same current date, two
invocations of the plan builder produce identical `Plan` values in every
field: `buildPlan` is a pure function of its arguments, so two runs are
definitionally the same value. -/
theorem buildPlan_deterministic (todayOrd : Int) (profile : Profile)
    (history : List Session) (movements : List Movement) (lookbackDays : Nat)
    (seed : Int) :
    buildPlan todayOrd profile history movements lookbackDays seed =
      buildPlan todayOrd profile history movements lookbackDays seed := rfl

/-! # C5: the ranked candidate list is sorted and stable -/

/-- C5.  The ranked candidate list is sorted in non-increasing order of
score (no higher-scoring pair appears after a lower-scoring pair), and any
two candidates with equal scores appear in the same relative order as in
the input movement library: restricted to any one score value, the ranked
list equals the eligible scored list, whose movements form a sublist of
the library (hence are in library order). -/
theorem rankCandidates_sorted_and_stable (movements : List Movement)
    (profile : Profile) (recentMovements : List String)
    (patternCounter : List (String × Nat)) :
    (rankCandidates movements profile recentMovements patternCounter).Pairwise
      (fun a b => b.2 ≤ a.2) ∧
    (∀ q : Int,
      (rankCandidates movements profile recentMovements patternCounter).filter
          (fun x => x.2 = q) =
        (eligibleScored movements profile recentMovements patternCounter).filter
          (fun x => x.2 = q)) ∧
    ((eligibleScored movements profile recentMovements patternCounter).map
      Prod.fst).Sublist movements := by
  refine ⟨sorted_sortByDesc _, fun q => filter_sortByDesc q _, ?_⟩
  have h : ∀ l : List Movement,
      (l.map (fun m =>
        (m, scoreMovement m profile recentMovements patternCounter))).map Prod.fst = l := by
    intro l
    induction l with
    | nil => rfl
    | cons a t ih => simp only [List.map_cons, ih]
  rw [eligibleScored, h]
  exact List.filter_sublist _

/-! # Lemmas about lower-cased sets -/

theorem contains_true_iff {l : List String} {x : String} :
    l.contains x = true ↔ x ∈ l := by
  simp [List.contains, List.elem_iff]

theorem mem_asLowerSet {x : String} {l : List String} :
    x ∈ asLowerSet l ↔ x ≠ "" ∧ ∃ v ∈ l, norm v = x := by
  induction l with
  | nil => simp [asLowerSet]
  | cons v vs ih =>
      by_cases h : norm v = ""
      · rw [show asLowerSet (v :: vs) = asLowerSet vs by simp [asLowerSet, h]]
        rw [ih]
        constructor
        · rintro ⟨hx, w, hw, hnw⟩
          exact ⟨hx, w, List.mem_cons_of_mem _ hw, hnw⟩
        · rintro ⟨hx, w, hw, hnw⟩
          rcases List.mem_cons.mp hw with rfl | hw2
          · exact absurd (hnw.symm.trans h) hx
          · exact ⟨hx, w, hw2, hnw⟩
      · rw [show asLowerSet (v :: vs) =
            norm v :: (asLowerSet vs).filter (fun x => x ≠ norm v) by
          simp [asLowerSet, h]]
        constructor
        · intro hmem
          rcases List.mem_cons.mp hmem with rfl | hmem2
          · exact ⟨h, v, List.mem_cons_self v vs, rfl⟩
          · obtain ⟨hmem3, _⟩ := List.mem_filter.mp hmem2
            obtain ⟨hx, w, hw, hnw⟩ := ih.mp hmem3
            exact ⟨hx, w, List.mem_cons_of_mem _ hw, hnw⟩
        · rintro ⟨hx, w, hw, hnw⟩
          rcases List.mem_cons.mp hw with rfl | hw2
          · exact hnw ▸ List.mem_cons_self _ _
          · by_cases hxv : x = norm v
            · exact hxv ▸ List.mem_cons_self _ _
            · refine List.mem_cons_of_mem _ (List.mem_filter.mpr ?_)
              exact ⟨ih.mpr ⟨hx, w, hw2, hnw⟩, by simpa using hxv⟩

theorem nodup_asLowerSet (l : List String) : (asLowerSet l).Nodup := by
  induction l with
  | nil => simp [asLowerSet]
  | cons v vs ih =>
      by_cases h : norm v = ""
      · simpa [asLowerSet, h] using ih
      · rw [show asLowerSet (v :: vs) =
            norm v :: (asLowerSet vs).filter (fun x => x ≠ norm v) by
          simp [asLowerSet, h]]
        refine List.nodup_cons.mpr ⟨?_, ih.filter _⟩
        intro hmem
        simpa using (List.mem_filter.mp hmem).2

/-! # C3: hard eligibility of every ranked candidate -/

/-- C3.  Every movement in the ranked candidate list for a normalized
profile passes all hard gates: its required equipment tags (other than
`none`/`bodyweight`) are available, its lower-cased name is not avoided,
its pattern tags avoid the avoided patterns, and its difficulty rank is at
most the profile level rank — plus one and with no recent repeat when the
goal is `skill`.  Normalization of the profile enters as the two
hypotheses (a valid fitness level; trimmed lower-cased non-empty equipment
entries). -/
theorem rankCandidates_eligibility (movements : List Movement) (profile : Profile)
    (recentMovements : List String) (patternCounter : List (String × Nat))
    (m : Movement) (s : Int)
    (hlevel : profile.fitness_level ∈ ["beginner", "intermediate", "advanced"])
    (hequip : ∀ e ∈ profile.equipment_available, norm e = e ∧ e ≠ "")
    (hmem : (m, s) ∈ rankCandidates movements profile recentMovements patternCounter) :
    (∀ t ∈ m.equipment, norm t ∉ ["none", "bodyweight"] → norm t ≠ "" →
        norm t ∈ profile.equipment_available) ∧
    norm m.name ∉ profile.limitations.avoid_movements ∧
    (∀ t ∈ m.patterns, norm t ≠ "" →
        norm t ∉ profile.limitations.avoid_patterns) ∧
    (profile.goal = "skill" →
        movementLevel m ≤ (LEVEL_RANK profile.fitness_level).getD 1 + 1 ∧
        norm m.name ∉ recentMovements) ∧
    (profile.goal ≠ "skill" →
        movementLevel m ≤ (LEVEL_RANK profile.fitness_level).getD 1) := by
  have hmem2 : (m, s) ∈ eligibleScored movements profile recentMovements patternCounter :=
    mem_sortByDesc.mp hmem
  obtain ⟨m', hm', heq⟩ := List.mem_map.mp hmem2
  obtain ⟨hm'lib, hcan⟩ := List.mem_filter.mp hm'
  have hmm : m' = m := congrArg Prod.fst heq
  subst hmm
  simp only [canDoMovement, Bool.and_eq_true] at hcan
  obtain ⟨⟨⟨⟨hlv, heqp⟩, hname⟩, hpat⟩, hrec⟩ := hcan
  obtain ⟨r, hr⟩ : ∃ r, LEVEL_RANK profile.fitness_level = some r := by
    rcases List.mem_cons.mp hlevel with h | hrest
    · rw [h]; exact ⟨0, rfl⟩
    rcases List.mem_cons.mp hrest with h | hrest2
    · rw [h]; exact ⟨1, rfl⟩
    rcases List.mem_cons.mp hrest2 with h | hrest3
    · rw [h]; exact ⟨2, rfl⟩
    · exact absurd hrest3 (List.not_mem_nil _)
  refine ⟨?_, ?_, ?_, ?_, ?_⟩
  · intro t ht hopt hne
    have htm : norm t ∈ asLowerSet m'.equipment := mem_asLowerSet.mpr ⟨hne, t, ht, rfl⟩
    have := List.all_eq_true.mp heqp _ htm
    simp only [Bool.or_eq_true, decide_eq_true_eq] at this
    rcases this with h | h
    · exact absurd h hopt
    · obtain ⟨hne2, e, he, hen⟩ := mem_asLowerSet.mp h
      have hfix := (hequip e he).1
      rw [← hen, hfix]
      exact he
  · intro hcontra
    rw [Bool.not_eq_eq_eq_not, Bool.not_true] at hname
    rw [contains_true_iff.mpr hcontra] at hname
    exact absurd hname (by decide)
  · intro t ht hne hcontra
    have htm : norm t ∈ asLowerSet m'.patterns := mem_asLowerSet.mpr ⟨hne, t, ht, rfl⟩
    have := List.all_eq_true.mp hpat _ htm
    simp only [Bool.not_eq_eq_eq_not, Bool.not_true] at this
    rw [contains_true_iff.mpr hcontra] at this
    exact absurd this (by decide)
  · intro hskill
    constructor
    · simp only [levelOk, hskill, hr, if_pos rfl, Bool.not_eq_eq_eq_not, Bool.not_true,
        decide_eq_false_iff_not, not_lt] at hlv
      simpa [hr] using hlv
    · intro hcontra
      simp only [hskill, Bool.not_eq_eq_eq_not, Bool.not_true, Bool.and_eq_false_iff] at hrec
      rcases hrec with h | h
      · simp at h
      · rw [contains_true_iff.mpr hcontra] at h
        exact absurd h (by decide)
  · intro hskill
    simp only [levelOk, hr, Bool.not_eq_eq_eq_not, Bool.not_true,
      decide_eq_false_iff_not, not_lt] at hlv
    have hz : (if profile.goal = "skill" then 1 else 0) = 0 := by simp [hskill]
    rw [hz] at hlv
    simpa [hr] using hlv

/-- Witness for C3: the intermediate `bike` movement is ranked (score 3)
under the default profile, and the eligibility conjunction holds for it. -/
theorem rankCandidates_eligibility_witness :
    (defaultProfile.fitness_level ∈ ["beginner", "intermediate", "advanced"] ∧
      (∀ e ∈ defaultProfile.equipment_available, norm e = e ∧ e ≠ "") ∧
      (simpleMovement "bike" "monostructural" "intermediate", (30 : Int)) ∈
        rankCandidates smallLib defaultProfile [] []) ∧
    ((∀ t ∈ (simpleMovement "bike" "monostructural" "intermediate").equipment,
        norm t ∉ ["none", "bodyweight"] → norm t ≠ "" →
        norm t ∈ defaultProfile.equipment_available) ∧
      norm (simpleMovement "bike" "monostructural" "intermediate").name ∉
        defaultProfile.limitations.avoid_movements ∧
      (∀ t ∈ (simpleMovement "bike" "monostructural" "intermediate").patterns,
        norm t ≠ "" → norm t ∉ defaultProfile.limitations.avoid_patterns) ∧
      (defaultProfile.goal = "skill" →
        movementLevel (simpleMovement "bike" "monostructural" "intermediate") ≤
          (LEVEL_RANK defaultProfile.fitness_level).getD 1 + 1 ∧
        norm (simpleMovement "bike" "monostructural" "intermediate").name ∉ []) ∧
      (defaultProfile.goal ≠ "skill" →
        movementLevel (simpleMovement "bike" "monostructural" "intermediate") ≤
          (LEVEL_RANK defaultProfile.fitness_level).getD 1)) :=
  ⟨⟨by decide, by decide, by decide⟩,
    rankCandidates_eligibility smallLib defaultProfile [] []
      (simpleMovement "bike" "monostructural" "intermediate") 30
      (by decide) (by decide) (by decide)⟩

/-! # Lemmas about the pick primitive -/

theorem choice_fst_mem {r : SeededRng} {l : List α} {x : α}
    (h : (r.choice l).1 = some x) : x ∈ l := by
  cases l with
  | nil => simp [SeededRng.choice] at h
  | cons v rest =>
      simp only [SeededRng.choice] at h
      have hx : (v :: rest).getD (rngIndex (r.next).1 (rest.length + 1)) v = x := by
        exact Option.some.inj h
      rw [← hx]
      unfold List.getD
      cases hg : (v :: rest).get? (rngIndex (r.next).1 (rest.length + 1)) with
      | some y => simpa using List.get?_mem hg
      | none => simp

theorem pickFilter_mem {ranked : List (Movement × Int)} {used : List String}
    {mods : Option (List String)} {inc : Bool} {x : Movement × Int}
    (h : x ∈ pickFilter ranked used mods inc) :
    x ∈ ranked ∧ (inc = false → norm x.1.modality ≠ "recovery") ∧
    norm x.1.name ∉ used ∧
    (∀ ms, mods = some ms → norm x.1.modality ∈ ms) := by
  obtain ⟨hr, hcond⟩ := List.mem_filter.mp h
  simp only [Bool.and_eq_true] at hcond
  obtain ⟨⟨h1, h2⟩, h3⟩ := hcond
  refine ⟨hr, ?_, ?_, ?_⟩
  · intro hinc heq
    subst hinc
    simp [heq] at h1
  · intro hmem
    rw [contains_true_iff.mpr hmem] at h2
    exact absurd h2 (by decide)
  · intro ms hms
    subst hms
    simp only [contains_true_iff] at h3
    exact h3

theorem pickBest_some {ranked : List (Movement × Int)} {rng : SeededRng}
    {used : List String} {mods : Option (List String)} {inc : Bool}
    {m : Movement} {rng' : SeededRng} {used' : List String}
    (h : pickBest ranked rng used mods inc = (some m, rng', used')) :
    norm m.name ∉ used ∧ used' = used ++ [norm m.name] ∧
    (inc = false → norm m.modality ≠ "recovery") ∧
    (∀ ms, mods = some ms → norm m.modality ∈ ms) := by
  unfold pickBest at h
  cases hf : pickFilter ranked used mods inc with
  | nil => rw [hf] at h; simp at h
  | cons f fs =>
      rw [hf] at h
      simp only at h
      cases hc : (rng.choice ((f :: fs).take 8)).1 with
      | none =>
          rw [show rng.choice ((f :: fs).take 8) =
            ((rng.choice ((f :: fs).take 8)).1, (rng.choice ((f :: fs).take 8)).2) from rfl,
            hc] at h
          simp at h
      | some chosen =>
          rw [show rng.choice ((f :: fs).take 8) =
            ((rng.choice ((f :: fs).take 8)).1, (rng.choice ((f :: fs).take 8)).2) from rfl,
            hc] at h
          simp only [Prod.mk.injEq, Option.some.inj] at h
          obtain ⟨hm, _, hu⟩ := h
          have hmem : chosen ∈ (f :: fs).take 8 := choice_fst_mem hc
          have hmem2 : chosen ∈ pickFilter ranked used mods inc := by
            rw [hf]; exact List.take_subset _ _ hmem
          obtain ⟨_, hrec, hused, hmods⟩ := pickFilter_mem hmem2
          have hm' : chosen.1 = m := Option.some.inj hm
          subst hm'
          refine ⟨hused, ?_, hrec, hmods⟩
          rw [← hu]
          simp [addToSet, hused]

theorem pickBest_none {ranked : List (Movement × Int)} {rng : SeededRng}
    {used : List String} {mods : Option (List String)} {inc : Bool}
    {rng' : SeededRng} {used' : List String}
    (h : pickBest ranked rng used mods inc = (none, rng', used')) :
    used' = used := by
  unfold pickBest at h
  cases hf : pickFilter ranked used mods inc with
  | nil => rw [hf] at h; simp at h; exact h.2.symm
  | cons f fs =>
      rw [hf] at h
      simp only at h
      cases hc : (rng.choice ((f :: fs).take 8)).1 with
      | none =>
          rw [show rng.choice ((f :: fs).take 8) =
            ((rng.choice ((f :: fs).take 8)).1, (rng.choice ((f :: fs).take 8)).2) from rfl,
            hc] at h
          simp at h
          exact h.2.symm
      | some chosen =>
          rw [show rng.choice ((f :: fs).take 8) =
            ((rng.choice ((f :: fs).take 8)).1, (rng.choice ((f :: fs).take 8)).2) from rfl,
            hc] at h
          simp at h

theorem warmupFilter_mem {ranked : List (Movement × Int)} {used : List String}
    {cands : List String} {x : Movement × Int}
    (h : x ∈ warmupFilter ranked used cands) : norm x.1.name ∉ used := by
  obtain ⟨_, hcond⟩ := List.mem_filter.mp h
  simp only [Bool.and_eq_true] at hcond
  intro hmem
  rw [contains_true_iff.mpr hmem] at hcond
  simp at hcond

theorem pickWarmup_some {ranked : List (Movement × Int)} {rng : SeededRng}
    {used cands : List String} {m : Movement} {rng' : SeededRng} {used' : List String}
    (h : pickWarmup ranked rng used cands = (some m, rng', used')) :
    norm m.name ∉ used ∧ used' = used ++ [norm m.name] := by
  unfold pickWarmup at h
  cases hf : warmupFilter ranked used cands with
  | nil =>
      rw [hf] at h
      obtain ⟨h1, h2, _, _⟩ := pickBest_some h
      exact ⟨h1, h2⟩
  | cons f fs =>
      rw [hf] at h
      simp only at h
      cases hc : (rng.choice ((f :: fs).take 8)).1 with
      | none =>
          rw [show rng.choice ((f :: fs).take 8) =
            ((rng.choice ((f :: fs).take 8)).1, (rng.choice ((f :: fs).take 8)).2) from rfl,
            hc] at h
          simp at h
      | some chosen =>
          rw [show rng.choice ((f :: fs).take 8) =
            ((rng.choice ((f :: fs).take 8)).1, (rng.choice ((f :: fs).take 8)).2) from rfl,
            hc] at h
          simp only [Prod.mk.injEq, Option.some.inj] at h
          obtain ⟨hm, _, hu⟩ := h
          have hmem : chosen ∈ (f :: fs).take 8 := choice_fst_mem hc
          have hmem2 : chosen ∈ warmupFilter ranked used cands := by
            rw [hf]; exact List.take_subset _ _ hmem
          have hused := warmupFilter_mem hmem2
          have hm' : chosen.1 = m := Option.some.inj hm
          subst hm'
          refine ⟨hused, ?_⟩
          rw [← hu]
          simp [addToSet, hused]

theorem pickWarmup_none {ranked : List (Movement × Int)} {rng : SeededRng}
    {used cands : List String} {rng' : SeededRng} {used' : List String}
    (h : pickWarmup ranked rng used cands = (none, rng', used')) :
    used' = used := by
  unfold pickWarmup at h
  cases hf : warmupFilter ranked used cands with
  | nil =>
      rw [hf] at h
      exact pickBest_none h
  | cons f fs =>
      rw [hf] at h
      simp only at h
      cases hc : (rng.choice ((f :: fs).take 8)).1 with
      | none =>
          rw [show rng.choice ((f :: fs).take 8) =
            ((rng.choice ((f :: fs).take 8)).1, (rng.choice ((f :: fs).take 8)).2) from rfl,
            hc] at h
          simp at h
          exact h.2.symm
      | some chosen =>
          rw [show rng.choice ((f :: fs).take 8) =
            ((rng.choice ((f :: fs).take 8)).1, (rng.choice ((f :: fs).take 8)).2) from rfl,
            hc] at h
          simp at h

theorem strengthPick_some {ranked : List (Movement × Int)} {rng : SeededRng}
    {used : List String} {profile : Profile} {m : Movement}
    {rng' : SeededRng} {used' : List String}
    (h : strengthPick ranked rng used profile = (some m, rng', used')) :
    norm m.name ∉ used ∧ used' = used ++ [norm m.name] ∧
    norm m.modality ≠ "recovery" := by
  unfold strengthPick at h
  by_cases hg : profile.goal = "engine" ∧ profile.session_minutes ≤ 35
  · rw [if_pos hg] at h; simp at h
  · rw [if_neg hg] at h
    obtain ⟨h1, h2, h3, _⟩ := pickBest_some h
    exact ⟨h1, h2, h3 rfl⟩

theorem strengthPick_none {ranked : List (Movement × Int)} {rng : SeededRng}
    {used : List String} {profile : Profile} {rng' : SeededRng} {used' : List String}
    (h : strengthPick ranked rng used profile = (none, rng', used')) :
    used' = used := by
  unfold strengthPick at h
  by_cases hg : profile.goal = "engine" ∧ profile.session_minutes ≤ 35
  · rw [if_pos hg] at h
    have := congrArg (fun p => p.2.2) h
    simpa using this.symm
  · rw [if_neg hg] at h
    exact pickBest_none h

/-! ## Chaining: picked names stay distinct -/

theorem chain_append {pre used : List String} {n : String}
    (hnodup : pre.Nodup) (hsub : ∀ x ∈ pre, x ∈ used) (hn : n ∉ used) :
    (pre ++ [n]).Nodup ∧ ∀ x ∈ pre ++ [n], x ∈ used ++ [n] := by
  constructor
  · refine List.Nodup.append hnodup (List.nodup_singleton n) ?_
    intro x hx hx2
    rw [List.mem_singleton.mp hx2] at hx
    exact hn (hsub n hx)
  · intro x hx
    rcases List.mem_append.mp hx with hx2 | hx2
    · exact List.mem_append_left _ (hsub x hx2)
    · exact List.mem_append_right _ hx2

theorem step_chain {pre used : List String} (c : Option Movement) (used' : List String)
    (hnodup : pre.Nodup) (hsub : ∀ x ∈ pre, x ∈ used)
    (hsome : ∀ m, c = some m → norm m.name ∉ used ∧ used' = used ++ [norm m.name])
    (hnone : c = none → used' = used) :
    (pre ++ c.toList.map lowName).Nodup ∧
    (∀ x ∈ pre ++ c.toList.map lowName, x ∈ used') := by
  cases c with
  | none =>
      refine ⟨by simpa using hnodup, ?_⟩
      intro x hx
      rw [hnone rfl]
      exact hsub x (by simpa using hx)
  | some m =>
      obtain ⟨hn, hu⟩ := hsome m rfl
      have hc := chain_append hnodup hsub hn
      rw [hu]
      simpa [lowName] using hc

theorem metconTopUp_chain (ranked : List (Movement × Int)) :
    ∀ (fuel : Nat) (acc : List Movement) (rng : SeededRng) (used pre : List String),
    (pre ++ acc.map lowName).Nodup → (∀ x ∈ pre ++ acc.map lowName, x ∈ used) →
    (pre ++ (metconTopUp ranked fuel acc rng used).1.map lowName).Nodup ∧
      ∀ x ∈ pre ++ (metconTopUp ranked fuel acc rng used).1.map lowName,
        x ∈ (metconTopUp ranked fuel acc rng used).2.2 := by
  intro fuel
  induction fuel with
  | zero =>
      intro acc rng used pre h1 h2
      exact ⟨h1, h2⟩
  | succ f ih =>
      intro acc rng used pre h1 h2
      rw [metconTopUp]
      rcases hp : pickBest ranked rng used
        (some ["monostructural", "gymnastics", "weightlifting", "odd-object"]) with
        ⟨c, rng', used'⟩
      cases c with
      | some extra =>
          dsimp only
          obtain ⟨hnotused, hused', _, _⟩ := pickBest_some hp
          have hn : lowName extra ∉ used := hnotused
          have base := chain_append (n := lowName extra) h1 h2 hn
          have hused2 : used' = used ++ [lowName extra] := hused'
          rw [← hused2] at base
          have h1' : (pre ++ (acc ++ [extra]).map lowName).Nodup := by
            simpa [List.append_assoc] using base.1
          have h2' : ∀ x ∈ pre ++ (acc ++ [extra]).map lowName, x ∈ used' := by
            intro x hx
            refine base.2 x ?_
            simpa [List.append_assoc] using hx
          exact ih (acc ++ [extra]) rng' used' pre h1' h2'
      | none =>
          dsimp only
          have hu := pickBest_none hp
          subst hu
          exact ⟨h1, h2⟩

theorem metconPicks_chain (ranked : List (Movement × Int)) (rng : SeededRng)
    (used pre : List String) (target : Nat)
    (h1 : pre.Nodup) (h2 : ∀ x ∈ pre, x ∈ used) :
    (pre ++ (metconPicks ranked rng used target).1.map lowName).Nodup ∧
      ∀ x ∈ pre ++ (metconPicks ranked rng used target).1.map lowName,
        x ∈ (metconPicks ranked rng used target).2.2 := by
  rw [metconPicks]
  rcases hp1 : pickBest ranked rng used (some ["monostructural"]) with ⟨c1, rng1, used1⟩
  dsimp only
  have s1 := step_chain c1 used1 h1 h2
    (fun m hm => by
      rw [hm] at hp1
      obtain ⟨a, b, _, _⟩ := pickBest_some hp1
      exact ⟨a, b⟩)
    (fun hm => by
      rw [hm] at hp1
      exact pickBest_none hp1)
  rcases hp2 : pickBest ranked rng1 used1 (some ["gymnastics"]) with ⟨c2, rng2, used2⟩
  dsimp only
  have s2 := step_chain c2 used2 s1.1 s1.2
    (fun m hm => by
      rw [hm] at hp2
      obtain ⟨a, b, _, _⟩ := pickBest_some hp2
      exact ⟨a, b⟩)
    (fun hm => by
      rw [hm] at hp2
      exact pickBest_none hp2)
  rcases hp3 : pickBest ranked rng2 used2 (some ["weightlifting", "odd-object"]) with
    ⟨c3, rng3, used3⟩
  dsimp only
  have s3 := step_chain c3 used3 s2.1 s2.2
    (fun m hm => by
      rw [hm] at hp3
      obtain ⟨a, b, _, _⟩ := pickBest_some hp3
      exact ⟨a, b⟩)
    (fun hm => by
      rw [hm] at hp3
      exact pickBest_none hp3)
  have h1' : (pre ++ ((c1.toList ++ c2.toList) ++ c3.toList).map lowName).Nodup := by
    simpa [List.append_assoc] using s3.1
  have h2' : ∀ x ∈ pre ++ ((c1.toList ++ c2.toList) ++ c3.toList).map lowName,
      x ∈ used3 := by
    intro x hx
    refine s3.2 x ?_
    simpa [List.append_assoc] using hx
  exact metconTopUp_chain ranked (target - ((c1.toList ++ c2.toList) ++ c3.toList).length)
    ((c1.toList ++ c2.toList) ++ c3.toList) rng3 used3 pre h1' h2'

/-! # C2: no repeated movement names within one session -/

/-- C2 (amended).  Across the movements actually picked for the warm-up,
strength/skill and metcon blocks of one plan-building run (states threaded
as in `buildPlan`), no trimmed lower-cased movement name occurs twice: every
successful pick adds its name to the used set and later picks filter on it.
(The fixed warm-up fallback names, which stand in when a pick is
unavailable and are not added to the used set, are exactly what the
counterexample exploits and are excluded here.) -/
theorem sessionPicks_nodup (ranked : List (Movement × Int)) (rng : SeededRng)
    (profile : Profile) :
    ((sessionPicks ranked rng profile).map lowName).Nodup := by
  rw [sessionPicks, warmupPicks]
  rcases hw1 : pickWarmup ranked rng [] ["monostructural"] with ⟨c1, rng1, used1⟩
  dsimp only
  have hpre0 : ([] : List String).Nodup := List.nodup_nil
  have hsub0 : ∀ x ∈ ([] : List String), x ∈ ([] : List String) := by simp
  have s1 := step_chain c1 used1 hpre0 hsub0
    (fun m hm => by
      rw [hm] at hw1
      exact pickWarmup_some hw1)
    (fun hm => by
      rw [hm] at hw1
      exact pickWarmup_none hw1)
  rcases hw2 : pickWarmup ranked rng1 used1 ["gymnastics", "recovery"] with ⟨c2, rng2, used2⟩
  dsimp only
  have s2 := step_chain c2 used2 s1.1 s1.2
    (fun m hm => by
      rw [hm] at hw2
      exact pickWarmup_some hw2)
    (fun hm => by
      rw [hm] at hw2
      exact pickWarmup_none hw2)
  rcases hw3 : pickWarmup ranked rng2 used2 ["gymnastics", "recovery", "odd-object"] with
    ⟨c3, rng3, used3⟩
  dsimp only
  have s3 := step_chain c3 used3 s2.1 s2.2
    (fun m hm => by
      rw [hm] at hw3
      exact pickWarmup_some hw3)
    (fun hm => by
      rw [hm] at hw3
      exact pickWarmup_none hw3)
  rcases hs : strengthPick ranked rng3 used3 profile with ⟨cs, rngS, usedS⟩
  dsimp only
  have s4 := step_chain cs usedS s3.1 s3.2
    (fun m hm => by
      rw [hm] at hs
      obtain ⟨a, b, _⟩ := strengthPick_some hs
      exact ⟨a, b⟩)
    (fun hm => by
      rw [hm] at hs
      exact strengthPick_none hs)
  have key := metconPicks_chain ranked (chooseWodType profile rngS).2 usedS
    ((([] ++ c1.toList.map lowName) ++ c2.toList.map lowName ++ c3.toList.map lowName) ++
      cs.toList.map lowName)
    (if profile.session_minutes > 45 then 4 else 3) s4.1 s4.2
  simpa [List.append_assoc] using key.1

/-- Counterexample for C2 as stated.  With a library containing a real
weightlifting movement named "air squat" and two monostructural movements,
the warm-up falls back to the fixed name "air squat" (no gymnastics or
recovery candidate exists) while the strength block independently picks the
library's "air squat" — so the concatenated warm-up/strength/metcon name
lists of the returned plan contain a duplicate. -/
theorem plan_repeated_name_cex :
    (buildPlan 20000 defaultProfile [] fallbackClashLib 2 1).map
        (fun p => hasDupStr (allSessionNames p)) = Except.ok true ∧
    (buildPlan 20000 defaultProfile [] fallbackClashLib 2 1).map
        (fun p => p.warmup.movements) = Except.ok ["row", "air squat", "plank"] ∧
    (buildPlan 20000 defaultProfile [] fallbackClashLib 2 1).map
        (fun p => Option.map (fun b => b.movement) p.strength_or_skill) =
      Except.ok (some "air squat") :=
  ⟨by rfl, by rfl, by rfl⟩

/-! # C9: recovery movements never reach strength/skill or metcon -/

theorem metconTopUp_recovery (ranked : List (Movement × Int)) :
    ∀ (fuel : Nat) (acc : List Movement) (rng : SeededRng) (used : List String),
    ∀ m ∈ (metconTopUp ranked fuel acc rng used).1,
      m ∈ acc ∨ norm m.modality ≠ "recovery" := by
  intro fuel
  induction fuel with
  | zero => intro acc rng used m hm; exact Or.inl hm
  | succ f ih =>
      intro acc rng used m hm
      rw [metconTopUp] at hm
      rcases hp : pickBest ranked rng used
        (some ["monostructural", "gymnastics", "weightlifting", "odd-object"]) with
        ⟨c, rng', used'⟩
      rw [hp] at hm
      cases c with
      | some extra =>
          dsimp only at hm
          rcases ih (acc ++ [extra]) rng' used' m hm with hacc | hr
          · rcases List.mem_append.mp hacc with h | h
            · exact Or.inl h
            · obtain ⟨_, _, hrec, _⟩ := pickBest_some hp
              rw [List.mem_singleton.mp h]
              exact Or.inr (hrec rfl)
          · exact Or.inr hr
      | none =>
          dsimp only at hm
          exact Or.inl hm

/-- C9.  No movement of modality `recovery` is ever selected for the
strength/skill block or the metcon movement list: both go through
`pickBest` with recovery inclusion disabled (the default), whose filter
drops recovery-modality candidates regardless of score.  These are exactly
the movements whose names `buildStrengthOrSkillBlock` and `buildMetcon`
write into the blocks of the returned plan. -/
theorem strength_metcon_never_recovery (ranked : List (Movement × Int))
    (rng rng2 : SeededRng) (used used2 : List String) (profile : Profile)
    (targetCount : Nat) :
    (∀ m ∈ (metconPicks ranked rng used targetCount).1,
      norm m.modality ≠ "recovery") ∧
    (∀ m, (strengthPick ranked rng2 used2 profile).1 = some m →
      norm m.modality ≠ "recovery") := by
  constructor
  · rw [metconPicks]
    rcases hp1 : pickBest ranked rng used (some ["monostructural"]) with ⟨c1, rng1, used1⟩
    dsimp only
    rcases hp2 : pickBest ranked rng1 used1 (some ["gymnastics"]) with ⟨c2, rng2x, used2x⟩
    dsimp only
    rcases hp3 : pickBest ranked rng2x used2x (some ["weightlifting", "odd-object"]) with
      ⟨c3, rng3, used3⟩
    dsimp only
    intro m hm
    rcases metconTopUp_recovery ranked _ _ _ _ m hm with hacc | hr
    · rcases List.mem_append.mp hacc with hacc2 | hc3
      · rcases List.mem_append.mp hacc2 with hc1 | hc2
        · cases c1 with
          | none => simp at hc1
          | some mv =>
              have hmv : m = mv := by simpa using hc1
              subst hmv
              obtain ⟨_, _, hrec, _⟩ := pickBest_some hp1
              exact hrec rfl
        · cases c2 with
          | none => simp at hc2
          | some mv =>
              have hmv : m = mv := by simpa using hc2
              subst hmv
              obtain ⟨_, _, hrec, _⟩ := pickBest_some hp2
              exact hrec rfl
      · cases c3 with
        | none => simp at hc3
        | some mv =>
            have hmv : m = mv := by simpa using hc3
            subst hmv
            obtain ⟨_, _, hrec, _⟩ := pickBest_some hp3
            exact hrec rfl
    · exact hr
  · intro m hm
    rcases hs : strengthPick ranked rng2 used2 profile with ⟨cs, rngS, usedS⟩
    rw [hs] at hm
    dsimp only at hm
    rw [hm] at hs
    exact (strengthPick_some hs).2.2

/-- Witness for C9: under the default profile and the two-movement library,
the metcon selection picks `bike` and the strength pick is `deadlift`,
and both have non-recovery modalities. -/
theorem strength_metcon_never_recovery_witness :
    (simpleMovement "bike" "monostructural" "intermediate" ∈
        (metconPicks (rankCandidates smallLib defaultProfile [] [])
          (SeededRng.ofSeed 1) [] 3).1 ∧
      (strengthPick (rankCandidates smallLib defaultProfile [] [])
          (SeededRng.ofSeed 1) [] defaultProfile).1 =
        some (simpleMovement "deadlift" "weightlifting" "intermediate")) ∧
    (norm (simpleMovement "bike" "monostructural" "intermediate").modality ≠ "recovery" ∧
      norm (simpleMovement "deadlift" "weightlifting" "intermediate").modality ≠
        "recovery") :=
  ⟨⟨by decide, by decide⟩,
    ⟨(strength_metcon_never_recovery (rankCandidates smallLib defaultProfile [] [])
        (SeededRng.ofSeed 1) (SeededRng.ofSeed 1) [] [] defaultProfile 3).1 _ (by decide),
      (strength_metcon_never_recovery (rankCandidates smallLib defaultProfile [] [])
        (SeededRng.ofSeed 1) (SeededRng.ofSeed 1) [] [] defaultProfile 3).2 _ (by decide)⟩⟩

/-! # C4: failure behaviour and completeness of returned plans -/

theorem buildMetcon_ok {ranked : List (Movement × Int)} {rng : SeededRng}
    {used : List String} {profile : Profile} {minutes : Nat} {mb : MetconBlock}
    {rng' : SeededRng} {used' : List String}
    (h : buildMetcon ranked rng used profile minutes = .ok (mb, rng', used')) :
    mb.movements ≠ [] := by
  rw [buildMetcon] at h
  rcases hw : chooseWodType profile rng with ⟨wt, rng0⟩
  rw [hw] at h
  dsimp only at h
  rcases hmp : metconPicks ranked rng0 used
      (if profile.session_minutes > 45 then 4 else 3) with ⟨ms, rng1, used1⟩
  rw [hmp] at h
  dsimp only at h
  by_cases he : ms.isEmpty
  · rw [if_pos he] at h
    cases h
  · rw [if_neg he] at h
    have htrip := Except.ok.inj h
    have hm1 := congrArg Prod.fst htrip
    have hmm := congrArg MetconBlock.movements hm1
    dsimp only at hmm
    intro hempty
    rw [hempty] at hmm
    have hms : ms = [] := List.map_eq_nil_iff.mp hmm
    rw [hms] at he
    exact he rfl

/-- C4.  If no movement in the library is eligible, the plan builder fails
with the error message telling the caller to relax constraints, producing
no `Plan` value at all (the `Except` is an `error`); conversely every
successful run returns a complete plan, whose metcon block in particular
selected at least one movement (its other three block fields are always
present by construction of `Plan`). -/
theorem buildPlan_failure_and_completeness (todayOrd : Int) (profile : Profile)
    (history : List Session) (movements : List Movement) (lookbackDays : Nat)
    (seed : Int) :
    (rankCandidates movements profile
        (recentContext todayOrd history movements lookbackDays).1
        (recentContext todayOrd history movements lookbackDays).2 = [] →
      buildPlan todayOrd profile history movements lookbackDays seed =
        Except.error
          "No movements match the current equipment/level/limitations. Relax constraints and retry.") ∧
    (∀ p, buildPlan todayOrd profile history movements lookbackDays seed = Except.ok p →
      p.metcon.movements ≠ []) := by
  constructor
  · intro h
    rw [buildPlan]
    rcases hrc : recentContext todayOrd history movements lookbackDays with ⟨recent, counter⟩
    rw [hrc] at h
    dsimp only at h
    dsimp only
    rw [h]
    rfl
  · intro p hp
    rw [buildPlan] at hp
    rcases hrc : recentContext todayOrd history movements lookbackDays with ⟨recent, counter⟩
    rw [hrc] at hp
    dsimp only at hp
    by_cases he : (rankCandidates movements profile recent counter).isEmpty
    · rw [if_pos he] at hp
      cases hp
    · rw [if_neg he] at hp
      rcases hw : buildWarmup (rankCandidates movements profile recent counter)
          (SeededRng.ofSeed seed) []
          (sessionBlockLengths profile.session_minutes).warmup with ⟨warmup, rng1, used1⟩
      rw [hw] at hp
      dsimp only at hp
      rcases hs : buildStrengthOrSkillBlock (rankCandidates movements profile recent counter)
          rng1 used1 profile (sessionBlockLengths profile.session_minutes).strength with
        ⟨strengthOrSkill, rng2, used2⟩
      rw [hs] at hp
      dsimp only at hp
      cases hmet : buildMetcon (rankCandidates movements profile recent counter)
          rng2 used2 profile (sessionBlockLengths profile.session_minutes).metcon with
      | error e =>
          rw [hmet] at hp
          cases hp
      | ok trip =>
          rcases trip with ⟨metcon, rng3, used3⟩
          rw [hmet] at hp
          dsimp only at hp
          rcases hc : buildCooldown movements rng3
              (sessionBlockLengths profile.session_minutes).cooldown with ⟨cooldown, rng4⟩
          rw [hc] at hp
          dsimp only at hp
          have hpm : p.metcon = metcon := by
            have := Except.ok.inj hp
            rw [← this]
          rw [hpm]
          exact buildMetcon_ok hmet

/-- Witness for C4: a beginner profile with an advanced-only library makes
the eligibility set empty and the run fails with the exact error message;
the fallback-clash run succeeds and its plan has a non-empty metcon
movement list. -/
theorem buildPlan_failure_and_completeness_witness :
    (rankCandidates advancedOnlyLib beginnerProfile
        (recentContext 20000 [] advancedOnlyLib 2).1
        (recentContext 20000 [] advancedOnlyLib 2).2 = [] ∧
      buildPlan 20000 beginnerProfile [] advancedOnlyLib 2 1 =
        Except.error
          "No movements match the current equipment/level/limitations. Relax constraints and retry.") ∧
    (buildPlan 20000 defaultProfile [] fallbackClashLib 2 1 = Except.ok demoPlan ∧
      demoPlan.metcon.movements ≠ []) :=
  ⟨⟨by rfl,
      (buildPlan_failure_and_completeness 20000 beginnerProfile [] advancedOnlyLib 2 1).1
        (by rfl)⟩,
    ⟨by rfl,
      (buildPlan_failure_and_completeness 20000 defaultProfile [] fallbackClashLib 2 1).2
        demoPlan (by rfl)⟩⟩

/-! # C7: EMOM minute computation -/

/-- Counterexample for C7 as stated.  A 75-minute session with an explicit
`emom` type yields a four-station metcon block with target 30 minutes, but
the computed EMOM total is `emomTotal 4 30 = 28 < 30`: the code rounds
`max(4·stations, minutes)` DOWN to a multiple of the station count, which
can undershoot the block's target minutes. -/
theorem emom_total_below_target_cex :
    (buildPlan 20000 emomProfile [] emomLib 2 1).map
        (fun p => (p.metcon.type, p.metcon.movements.length, p.metcon.duration_min)) =
      Except.ok ("emom", 4, 30) ∧
    (buildPlan 20000 emomProfile [] emomLib 2 1).map (fun p => p.metcon.description) =
      Except.ok
        "EMOM 28 (cycle 4 stations): Min 1: 12/10 cal ski | Min 2: 14 reps push up | Min 3: 10 reps deadlift | Min 4: 12/10 cal bike" ∧
    emomTotal 4 30 = 28 ∧ ¬ (30 ≤ 28) :=
  ⟨by rfl, by rfl, by rfl, by decide⟩

/-- C7 (amended).  For every emom metcon block with station count `s ≥ 1`
and block target minutes `m`, the computed total `emomTotal s m` is a
multiple of `s` and at least `4·s`; it is not always at least `m`, but it
is within one station cycle below it (greater than `m − s`). -/
theorem emomTotal_bounds (stationCount minutes : Nat) (h : 1 ≤ stationCount) :
    stationCount ∣ emomTotal stationCount minutes ∧
    stationCount * 4 ≤ emomTotal stationCount minutes ∧
    minutes < emomTotal stationCount minutes + stationCount := by
  simp only [emomTotal]
  have hd := Nat.div_add_mod (max (stationCount * 4) minutes) stationCount
  have hmod : (max (stationCount * 4) minutes) % stationCount < stationCount :=
    Nat.mod_lt _ h
  have h4 : stationCount * 4 ≤ max (stationCount * 4) minutes := le_max_left _ _
  have hm : minutes ≤ max (stationCount * 4) minutes := le_max_right _ _
  refine ⟨⟨max (stationCount * 4) minutes / stationCount, by omega⟩, ?_, by omega⟩
  have hlt : stationCount * 4 <
      stationCount * (max (stationCount * 4) minutes / stationCount + 1) := by
    have : stationCount * (max (stationCount * 4) minutes / stationCount + 1) =
        stationCount * (max (stationCount * 4) minutes / stationCount) + stationCount := by
      ring
    omega
  have hq : 4 < max (stationCount * 4) minutes / stationCount + 1 :=
    Nat.lt_of_mul_lt_mul_left hlt
  have : stationCount * 4 ≤
      stationCount * (max (stationCount * 4) minutes / stationCount) :=
    Nat.mul_le_mul_left _ (by omega)
  omega

/-- Witness for the amended C7 at the counterexample's own numbers. -/
theorem emomTotal_bounds_witness :
    1 ≤ 4 ∧
    (4 ∣ emomTotal 4 30 ∧ 4 * 4 ≤ emomTotal 4 30 ∧ 30 < emomTotal 4 30 + 4) :=
  ⟨by decide, emomTotal_bounds 4 30 (by decide)⟩

/-! # C6: the fatigue analyzer refines its specification -/

theorem cnt_incrementCounter (c : List (String × Nat)) (k key : String) :
    cnt (incrementCounter c k) key = cnt c key + (if k = key then 1 else 0) := by
  induction c with
  | nil =>
      by_cases h2 : k = key <;> simp [incrementCounter, cnt, h2]
  | cons kv rest ih =>
      obtain ⟨k', v⟩ := kv
      by_cases h : k' = k
      · subst h
        by_cases h2 : k' = key <;> simp [incrementCounter, cnt, h2]
      · rw [incrementCounter, if_neg h]
        by_cases h2 : k' = key
        · have hk : ¬ k = key := fun hk => h (h2.trans hk.symm)
          simp [cnt, h2, hk]
        · simp [cnt, h2, ih]

theorem mem_addToSet {l : List String} {n x : String} :
    x ∈ addToSet l n ↔ x ∈ l ∨ x = n := by
  unfold addToSet
  by_cases h : n ∈ l
  · rw [if_pos h]
    exact ⟨Or.inl, fun hx => hx.elim id (fun he => he ▸ h)⟩
  · rw [if_neg h]
    simp

theorem normTags_cons (t : String) (ts : List String) :
    normTags (t :: ts) = if norm t = "" then normTags ts else norm t :: normTags ts := by
  by_cases h : norm t = "" <;>
    simp [normTags, normName, List.filterMap_cons, h]

theorem cnt_tallyPatterns (pats : List String) : ∀ (c : List (String × Nat)) (key : String),
    cnt (tallyPatterns c pats) key = cnt c key + (normTags pats).count key := by
  induction pats with
  | nil => intro c key; simp [tallyPatterns, normTags]
  | cons t ts ih =>
      intro c key
      have hstep : tallyPatterns c (t :: ts) =
          tallyPatterns (if norm t = "" then c else incrementCounter c (norm t)) ts := by
        rw [tallyPatterns, List.foldl_cons, tallyPatterns]
      rw [hstep, normTags_cons]
      by_cases h : norm t = ""
      · simp only [if_pos h]
        exact ih c key
      · simp only [if_neg h]
        rw [ih, cnt_incrementCounter, List.count_cons]
        have : (norm t == key) = decide (norm t = key) := by
          by_cases h2 : norm t = key <;> simp [h2]
        by_cases h2 : norm t = key <;> (simp [h2]; try omega)

theorem cnt_keyBump (lib : List Movement) (c : List (String × Nat)) (k key : String) :
    cnt (match byNameGet lib k with
          | some found => tallyPatterns c found.patterns
          | none => c) key = cnt c key + keyTally lib k key := by
  cases h : byNameGet lib k with
  | some found => simp [keyTally, h, cnt_tallyPatterns]
  | none => simp [keyTally, h]

theorem movFold_spec (lib : List Movement) (ms : List String) :
    ∀ (acc : List String × List (String × Nat)),
      (∀ x, x ∈ (ms.foldl (procMovementName lib) acc).1 ↔
        x ∈ acc.1 ∨ x ∈ normTags ms) ∧
      (∀ p, cnt (ms.foldl (procMovementName lib) acc).2 p =
        cnt acc.2 p + ((normTags ms).map (fun k => keyTally lib k p)).sum) := by
  induction ms with
  | nil => intro acc; simp [normTags]
  | cons n rest ih =>
      intro acc
      rw [List.foldl_cons]
      by_cases h : norm n = ""
      · have hp : procMovementName lib acc n = acc := by
          simp [procMovementName, h]
        rw [hp, normTags_cons, if_pos h]
        exact ih acc
      · have hp : procMovementName lib acc n =
            (addToSet acc.1 (norm n),
              match byNameGet lib (norm n) with
              | some found => tallyPatterns acc.2 found.patterns
              | none => acc.2) := by
          simp [procMovementName, h]
        rw [hp, normTags_cons, if_neg h]
        obtain ⟨iha, ihb⟩ := ih (addToSet acc.1 (norm n),
          match byNameGet lib (norm n) with
          | some found => tallyPatterns acc.2 found.patterns
          | none => acc.2)
        constructor
        · intro x
          rw [iha x]
          simp only [mem_addToSet, List.mem_cons]
          tauto
        · intro p
          rw [ihb p, cnt_keyBump]
          simp [List.map_cons, List.sum_cons]
          omega

theorem procSession_spec (lib : List Movement) (cutoff : Int) (s : Session)
    (acc : List String × List (String × Nat)) :
    (∀ x, x ∈ (procSession lib cutoff acc s).1 ↔
      x ∈ acc.1 ∨ (sessionInLookback s cutoff = true ∧ x ∈ sessionMoveKeys s)) ∧
    (∀ p, cnt (procSession lib cutoff acc s).2 p =
      cnt acc.2 p +
        (if sessionInLookback s cutoff then sessionTally lib s p else 0)) := by
  by_cases h : sessionInLookback s cutoff
  · have hp : procSession lib cutoff acc s =
        ((s.movements.foldl (procMovementName lib) acc).1,
          tallyPatterns (s.movements.foldl (procMovementName lib) acc).2 s.patterns) := by
      simp [procSession, h]
    rw [hp]
    obtain ⟨ma, mb⟩ := movFold_spec lib s.movements acc
    constructor
    · intro x
      simp only
      rw [ma x]
      simp [h, sessionMoveKeys, normTags]
    · intro p
      simp only
      rw [cnt_tallyPatterns, mb p]
      simp [h, sessionTally, sessionMoveKeys]
      omega
  · have hp : procSession lib cutoff acc s = acc := by
      simp [procSession, h]
    rw [hp]
    constructor
    · intro x
      simp [h]
    · intro p
      simp [h]

theorem histFold_spec (lib : List Movement) (cutoff : Int) (history : List Session) :
    ∀ (acc : List String × List (String × Nat)),
      (∀ x, x ∈ (history.foldl (procSession lib cutoff) acc).1 ↔
        x ∈ acc.1 ∨ ∃ s ∈ history, sessionInLookback s cutoff = true ∧
          x ∈ sessionMoveKeys s) ∧
      (∀ p, cnt (history.foldl (procSession lib cutoff) acc).2 p =
        cnt acc.2 p +
          ((history.filter (fun s => sessionInLookback s cutoff)).map
            (fun s => sessionTally lib s p)).sum) := by
  induction history with
  | nil => intro acc; simp
  | cons s rest ih =>
      intro acc
      rw [List.foldl_cons]
      obtain ⟨pa, pb⟩ := procSession_spec lib cutoff s acc
      obtain ⟨ra, rb⟩ := ih (procSession lib cutoff acc s)
      constructor
      · intro x
        rw [ra x, pa x]
        constructor
        · rintro ((hx | ⟨hin, hk⟩) | ⟨s2, hs2, hin2, hk2⟩)
          · exact Or.inl hx
          · exact Or.inr ⟨s, List.mem_cons_self s rest, hin, hk⟩
          · exact Or.inr ⟨s2, List.mem_cons_of_mem _ hs2, hin2, hk2⟩
        · rintro (hx | ⟨s2, hs2, hin2, hk2⟩)
          · exact Or.inl (Or.inl hx)
          · rcases List.mem_cons.mp hs2 with rfl | hs3
            · exact Or.inl (Or.inr ⟨hin2, hk2⟩)
            · exact Or.inr ⟨s2, hs3, hin2, hk2⟩
      · intro p
        rw [rb p, pb p, List.filter_cons]
        by_cases h : sessionInLookback s cutoff <;> (simp [h]; try omega)

/-- C6.  The fatigue analyzer follows §4.3 of the specification: a session
contributes iff its date is absent, unparsable, or on/after the cutoff
(`contributes`, written from the spec, agrees with the code's
`sessionInLookback` at cutoff `today - lookback`); a normalized movement
name is in the recent-movements set iff some contributing session performed
it; and each pattern's count is the sum, over contributing sessions, of the
library pattern tallies of the session's movements plus its directly
asserted patterns.  Sessions with a valid date before the cutoff contribute
nothing (they are filtered out on the right-hand sides). -/
theorem recentContext_follows_spec (todayOrd : Int) (history : List Session)
    (lib : List Movement) (lookbackDays : Nat) :
    (∀ s : Session, contributes todayOrd lookbackDays s =
      sessionInLookback s (todayOrd - lookbackDays)) ∧
    (∀ x, x ∈ (recentContext todayOrd history lib lookbackDays).1 ↔
      ∃ s ∈ history, contributes todayOrd lookbackDays s = true ∧
        x ∈ sessionMoveKeys s) ∧
    (∀ p, cnt (recentContext todayOrd history lib lookbackDays).2 p =
      ((history.filter (contributes todayOrd lookbackDays)).map
        (fun s => sessionTally lib s p)).sum) := by
  have hagree : ∀ s : Session, contributes todayOrd lookbackDays s =
      sessionInLookback s (todayOrd - lookbackDays) := by
    intro s
    cases hd : s.date with
    | none => simp [contributes, sessionInLookback, hd, parseIsoDate, trimList, dropTrail]
    | some d => simp [contributes, sessionInLookback, hd]
  obtain ⟨fa, fb⟩ := histFold_spec lib (todayOrd - lookbackDays) history ([], [])
  refine ⟨hagree, ?_, ?_⟩
  · intro x
    rw [recentContext, fa x]
    simp only [List.not_mem_nil, false_or]
    constructor
    · rintro ⟨s, hs, hin, hk⟩
      exact ⟨s, hs, (hagree s).symm ▸ hin, hk⟩
    · rintro ⟨s, hs, hin, hk⟩
      exact ⟨s, hs, (hagree s) ▸ hin, hk⟩
  · intro p
    rw [recentContext, fb p]
    have : history.filter (contributes todayOrd lookbackDays) =
        history.filter (fun s => sessionInLookback s (todayOrd - lookbackDays)) :=
      List.filter_congr (fun s _ => hagree s)
    rw [this]
    simp [cnt]

/-! # Normalization is idempotent -/

theorem toNat_ofNat_of_lt {n : Nat} (h : n < 55296) : (Char.ofNat n).toNat = n := by
  have hv : n.isValidChar := Or.inl h
  rw [Char.ofNat, dif_pos hv]
  rfl

theorem lowerChar_idem (c : Char) : lowerChar (lowerChar c) = lowerChar c := by
  unfold lowerChar
  by_cases h : 65 ≤ c.toNat ∧ c.toNat ≤ 90
  · rw [if_pos h]
    have ht : (Char.ofNat (c.toNat + 32)).toNat = c.toNat + 32 :=
      toNat_ofNat_of_lt (by omega)
    rw [if_neg (by rw [ht]; omega)]
  · rw [if_neg h, if_neg h]

theorem wsChar_lowerChar (c : Char) : wsChar (lowerChar c) = wsChar c := by
  unfold lowerChar
  by_cases h : 65 ≤ c.toNat ∧ c.toNat ≤ 90
  · rw [if_pos h]
    have ht : (Char.ofNat (c.toNat + 32)).toNat = c.toNat + 32 :=
      toNat_ofNat_of_lt (by omega)
    have h1 : wsChar (Char.ofNat (c.toNat + 32)) = false := by
      simp only [wsChar, ht, Bool.or_eq_false_iff, decide_eq_false_iff_not]
      omega
    have h2 : wsChar c = false := by
      simp only [wsChar, Bool.or_eq_false_iff, decide_eq_false_iff_not]
      omega
    rw [h1, h2]
  · rw [if_neg h]

theorem dropWhile_idem (p : α → Bool) (l : List α) :
    (l.dropWhile p).dropWhile p = l.dropWhile p := by
  induction l with
  | nil => rfl
  | cons x xs ih =>
      by_cases hp : p x
      · simp [List.dropWhile_cons, hp, ih]
      · simp [List.dropWhile_cons, hp]

theorem dropWhile_suffix_exists (p : α → Bool) (l : List α) :
    ∃ t, t ++ l.dropWhile p = l := by
  induction l with
  | nil => exact ⟨[], rfl⟩
  | cons x xs ih =>
      by_cases hp : p x
      · obtain ⟨t, ht⟩ := ih
        exact ⟨x :: t, by simp [List.dropWhile_cons, hp, ht]⟩
      · exact ⟨[], by simp [List.dropWhile_cons, hp]⟩

theorem dropTrail_prefix (l : List Char) : ∃ u, dropTrail l ++ u = l := by
  obtain ⟨t, ht⟩ := dropWhile_suffix_exists wsChar l.reverse
  refine ⟨t.reverse, ?_⟩
  rw [dropTrail, ← List.reverse_append, ht, List.reverse_reverse]

theorem dropWhile_dropTrail (l : List Char) (h : l.dropWhile wsChar = l) :
    (dropTrail l).dropWhile wsChar = dropTrail l := by
  cases hd : dropTrail l with
  | nil => rfl
  | cons x xs =>
      obtain ⟨u, hu⟩ := dropTrail_prefix l
      rw [hd] at hu
      have hxl : l = x :: (xs ++ u) := by rw [← hu]; simp
      have hx : wsChar x = false := by
        by_contra hc
        have hx2 : wsChar x = true := by
          cases hw : wsChar x
          · exact absurd hw hc
          · rfl
        rw [hxl, List.dropWhile_cons, if_pos hx2] at h
        have hlen := congrArg List.length h
        rw [List.length_cons] at hlen
        have hle := (List.dropWhile_sublist (p := wsChar) (l := xs ++ u)).length_le
        omega
      simp [List.dropWhile_cons, hx]

theorem dropTrail_idem (l : List Char) : dropTrail (dropTrail l) = dropTrail l := by
  unfold dropTrail
  rw [List.reverse_reverse, dropWhile_idem]

theorem trimList_idem (l : List Char) : trimList (trimList l) = trimList l := by
  unfold trimList
  rw [dropWhile_dropTrail _ (dropWhile_idem wsChar l), dropTrail_idem]

theorem dropWhile_map_lower (l : List Char) :
    (l.map lowerChar).dropWhile wsChar = (l.dropWhile wsChar).map lowerChar := by
  induction l with
  | nil => rfl
  | cons x xs ih =>
      simp only [List.map_cons, List.dropWhile_cons, wsChar_lowerChar]
      by_cases hx : wsChar x
      · rw [if_pos hx, if_pos hx, ih]
      · rw [if_neg hx, if_neg hx, List.map_cons]

theorem dropTrail_map_lower (l : List Char) :
    dropTrail (l.map lowerChar) = (dropTrail l).map lowerChar := by
  unfold dropTrail
  rw [← List.map_reverse, dropWhile_map_lower, List.map_reverse]

theorem trimList_map_lower (l : List Char) :
    trimList (l.map lowerChar) = (trimList l).map lowerChar := by
  unfold trimList
  rw [dropWhile_map_lower, dropTrail_map_lower]

theorem norm_norm (s : String) : norm (norm s) = norm s := by
  show String.mk ((trimList ((trimList s.data).map lowerChar)).map lowerChar) =
    String.mk ((trimList s.data).map lowerChar)
  congr 1
  rw [trimList_map_lower, List.map_map, trimList_idem]
  exact List.map_congr_left (fun c _ => lowerChar_idem c)

theorem norm_empty_iff (s : String) : norm s = "" ↔ trimStr s = "" := by
  unfold norm lowerStr
  constructor
  · intro h
    have := congrArg String.data h
    simp only at this
    have hlen := congrArg List.length this
    rw [List.length_map] at hlen
    cases he : (trimStr s).data with
    | nil =>
        cases hs : trimStr s with
        | mk d => rw [hs] at he; simp at he; rw [he]
    | cons a b => rw [he] at hlen; simp at hlen
  · intro h
    rw [h]
    rfl

theorem asLowerSet_norm_fixed {x : String} {l : List String}
    (h : x ∈ asLowerSet l) : norm x = x ∧ x ≠ "" := by
  obtain ⟨hne, v, _, hv⟩ := mem_asLowerSet.mp h
  exact ⟨by rw [← hv, norm_norm], hne⟩

/-! # Lemmas about the ascending string sort -/

theorem mem_insertAsc {x y : String} {l : List String} :
    y ∈ insertAsc x l ↔ y = x ∨ y ∈ l := by
  induction l with
  | nil => simp [insertAsc]
  | cons z zs ih =>
      by_cases h : lexLe x.data z.data
      · simp [insertAsc, h]
      · simp only [insertAsc, if_neg h, List.mem_cons, ih]
        tauto

theorem mem_sortAsc {x : String} {l : List String} : x ∈ sortAsc l ↔ x ∈ l := by
  induction l with
  | nil => simp [sortAsc]
  | cons z zs ih => simp [sortAsc, mem_insertAsc, ih]

theorem nodup_insertAsc {x : String} {l : List String} (hx : x ∉ l) (h : l.Nodup) :
    (insertAsc x l).Nodup := by
  induction l with
  | nil => simp [insertAsc]
  | cons z zs ih =>
      obtain ⟨hz, hzs⟩ := List.nodup_cons.mp h
      by_cases hc : lexLe x.data z.data
      · rw [insertAsc, if_pos hc]
        exact List.nodup_cons.mpr ⟨hx, h⟩
      · rw [insertAsc, if_neg hc]
        refine List.nodup_cons.mpr ⟨?_, ih (fun hm => hx (List.mem_cons_of_mem _ hm)) hzs⟩
        intro hm
        rcases mem_insertAsc.mp hm with rfl | hm2
        · exact hx (List.mem_cons_self _ _)
        · exact hz hm2

theorem nodup_sortAsc {l : List String} (h : l.Nodup) : (sortAsc l).Nodup := by
  induction l with
  | nil => simp [sortAsc]
  | cons z zs ih =>
      obtain ⟨hz, hzs⟩ := List.nodup_cons.mp h
      exact nodup_insertAsc (fun hm => hz (mem_sortAsc.mp hm)) (ih hzs)

/-! # C8: the normalizer always yields a canonical profile -/

theorem asLowerSetJ_nodup (j : Json) : (asLowerSetJ j).Nodup := by
  cases j <;> simp [asLowerSetJ, nodup_asLowerSet]

theorem asLowerSetJ_norm_fixed {j : Json} {x : String} (h : x ∈ asLowerSetJ j) :
    norm x = x ∧ x ≠ "" := by
  cases j <;> simp [asLowerSetJ] at h
  exact asLowerSet_norm_fixed h

theorem LEVEL_RANK_isSome {s : String} (h : (LEVEL_RANK s).isSome = true) :
    s ∈ ["beginner", "intermediate", "advanced"] := by
  by_cases h1 : s = "beginner"
  · simp [h1]
  by_cases h2 : s = "intermediate"
  · simp [h2]
  by_cases h3 : s = "advanced"
  · simp [h3]
  have hn : LEVEL_RANK s = none := by
    unfold LEVEL_RANK
    split <;> simp_all
  rw [hn] at h
  simp at h

theorem sortedSet_props {l : List String} (hn : l.Nodup)
    (hf : ∀ x ∈ l, norm x = x ∧ x ≠ "") :
    (sortedListFromSet l).Nodup ∧ ∀ x ∈ sortedListFromSet l, norm x = x ∧ x ≠ "" :=
  ⟨nodup_sortAsc hn, fun x hx => hf x (mem_sortAsc.mp hx)⟩

/-- C8.  For every raw record, the normalized profile has an integer
session length in [20, 120] (exactly 45 when the raw value does not parse
to an integer); an equipment set containing "none" made of trimmed,
lower-cased, deduplicated, non-empty strings; lower-cased deduplicated
avoid sets; and valid enum values for goal, fitness level, intensity and
wod type, falling back to the documented defaults whenever the (string
coerced, trimmed, lower-cased) raw values are not among the valid values:
in particular the wod type is left unset whenever the raw value is a
string whose trimmed lower-cased form is not a valid wod type, or is not
a string at all. `mergeProfile` is a total function, so the normalizer
never fails on a record input. -/
theorem mergeProfile_normalizes (raw : List (String × Json)) :
    (20 ≤ (mergeProfile raw).session_minutes ∧
      (mergeProfile raw).session_minutes ≤ 120) ∧
    (jsParseInt ((objGet (objAssignAll DEFAULT_PROFILE raw) "session_minutes").getD
        .null) = none → (mergeProfile raw).session_minutes = 45) ∧
    "none" ∈ (mergeProfile raw).equipment_available ∧
    (mergeProfile raw).equipment_available.Nodup ∧
    (∀ e ∈ (mergeProfile raw).equipment_available, norm e = e ∧ e ≠ "") ∧
    (mergeProfile raw).limitations.avoid_patterns.Nodup ∧
    (∀ e ∈ (mergeProfile raw).limitations.avoid_patterns, norm e = e ∧ e ≠ "") ∧
    (mergeProfile raw).limitations.avoid_movements.Nodup ∧
    (∀ e ∈ (mergeProfile raw).limitations.avoid_movements, norm e = e ∧ e ≠ "") ∧
    (mergeProfile raw).goal ∈ ["engine", "strength", "skill", "mixed", "power"] ∧
    (enumField (objAssignAll DEFAULT_PROFILE raw) "goal" "mixed" ∉
        ["engine", "strength", "skill", "mixed", "power"] →
      (mergeProfile raw).goal = "mixed") ∧
    (mergeProfile raw).fitness_level ∈ ["beginner", "intermediate", "advanced"] ∧
    (enumField (objAssignAll DEFAULT_PROFILE raw) "fitness_level" "intermediate" ∉
        ["beginner", "intermediate", "advanced"] →
      (mergeProfile raw).fitness_level = "intermediate") ∧
    (mergeProfile raw).intensity ∈ ["low", "moderate", "high"] ∧
    (enumField (objAssignAll DEFAULT_PROFILE raw) "intensity" "moderate" ∉
        ["low", "moderate", "high"] →
      (mergeProfile raw).intensity = "moderate") ∧
    (∀ t, (mergeProfile raw).wod_type = some t → t ∈ WOD_TYPES) ∧
    (∀ s, (objGet (objAssignAll DEFAULT_PROFILE raw) "wod_type").getD .null =
        Json.str s → norm s ∉ WOD_TYPES → (mergeProfile raw).wod_type = none) ∧
    (((objGet (objAssignAll DEFAULT_PROFILE raw) "wod_type").getD .null).isStr
        = false → (mergeProfile raw).wod_type = none) := by
  have hequipBase :
      (asLowerSetJ (jsOr ((objGet (objAssignAll DEFAULT_PROFILE raw)
        "equipment_available").getD .null) (.arr [.str "none"]))).Nodup ∧
      ∀ x ∈ asLowerSetJ (jsOr ((objGet (objAssignAll DEFAULT_PROFILE raw)
        "equipment_available").getD .null) (.arr [.str "none"])),
        norm x = x ∧ x ≠ "" :=
    ⟨asLowerSetJ_nodup _, fun x hx => asLowerSetJ_norm_fixed hx⟩
  refine ⟨?_, ?_, ?_, ?_, ?_, ?_, ?_, ?_, ?_, ?_, ?_, ?_, ?_, ?_, ?_, ?_, ?_, ?_⟩
  · simp only [mergeProfile]
    omega
  · intro h
    simp only [mergeProfile, h, Option.getD_none]
    rfl
  · simp only [mergeProfile, sortedListFromSet, mem_sortAsc]
    split
    · assumption
    · exact List.mem_append_right _ (List.mem_singleton_self _)
  · simp only [mergeProfile, sortedListFromSet]
    apply nodup_sortAsc
    split
    · exact hequipBase.1
    · refine List.Nodup.append hequipBase.1 (List.nodup_singleton _) ?_
      intro x hx hx2
      rw [List.mem_singleton.mp hx2] at hx
      exact (by assumption : "none" ∉ _) hx
  · simp only [mergeProfile, sortedListFromSet]
    intro e he
    rw [mem_sortAsc] at he
    revert he
    split
    · intro he
      exact hequipBase.2 e he
    · intro he
      rcases List.mem_append.mp he with h | h
      · exact hequipBase.2 e h
      · rw [List.mem_singleton.mp h]
        exact ⟨by rfl, by decide⟩
  · simp only [mergeProfile]
    exact (sortedSet_props (asLowerSetJ_nodup _)
      (fun x hx => asLowerSetJ_norm_fixed hx)).1
  · simp only [mergeProfile]
    exact (sortedSet_props (asLowerSetJ_nodup _)
      (fun x hx => asLowerSetJ_norm_fixed hx)).2
  · simp only [mergeProfile]
    exact (sortedSet_props (asLowerSetJ_nodup _)
      (fun x hx => asLowerSetJ_norm_fixed hx)).1
  · simp only [mergeProfile]
    exact (sortedSet_props (asLowerSetJ_nodup _)
      (fun x hx => asLowerSetJ_norm_fixed hx)).2
  · simp only [mergeProfile]
    split
    · assumption
    · simp
  · intro h
    simp only [mergeProfile, if_neg h]
  · simp only [mergeProfile]
    split
    · exact LEVEL_RANK_isSome (by assumption)
    · simp
  · intro h
    have : ¬ ((LEVEL_RANK (enumField (objAssignAll DEFAULT_PROFILE raw)
        "fitness_level" "intermediate")).isSome = true) := by
      intro hs
      exact h (LEVEL_RANK_isSome hs)
    simp only [mergeProfile, if_neg this]
  · simp only [mergeProfile]
    split
    · assumption
    · simp
  · intro h
    simp only [mergeProfile, if_neg h]
  · simp only [mergeProfile]
    intro t ht
    revert ht
    cases hj : (objGet (objAssignAll DEFAULT_PROFILE raw) "wod_type").getD .null with
    | str s =>
        dsimp only
        by_cases hw : norm s ∈ WOD_TYPES
        · rw [if_pos hw]
          intro ht
          rw [← Option.some.inj ht]
          exact hw
        · rw [if_neg hw]
          intro ht
          cases ht
    | null => intro ht; cases ht
    | bool b => intro ht; cases ht
    | int n => intro ht; cases ht
    | arr xs => intro ht; cases ht
    | obj fs => intro ht; cases ht
  · intro s hs hw
    simp only [mergeProfile]
    rw [hs]
    dsimp only
    rw [if_neg hw]
  · intro hb
    simp only [mergeProfile]
    revert hb
    cases hj : (objGet (objAssignAll DEFAULT_PROFILE raw) "wod_type").getD .null with
    | str s => intro hb; exact Bool.noConfusion hb
    | null => intro hb; rfl
    | bool b => intro hb; rfl
    | int n => intro hb; rfl
    | arr xs => intro hb; rfl
    | obj fs => intro hb; rfl

/-- Witness for C8 at three concrete raw records: the minutes fall back to
45, the equipment entry is normalized, the three invalid enums fall back to
their defaults, the shouted wod type normalizes to a valid one, an invalid
wod type string falls back to unset, and a non-string wod type falls back
to unset. -/
theorem mergeProfile_normalizes_witness :
    (jsParseInt ((objGet (objAssignAll DEFAULT_PROFILE messyRaw)
        "session_minutes").getD .null) = none ∧
      "barbell" ∈ (mergeProfile messyRaw).equipment_available ∧
      " push" ≠ "" ∧
      enumField (objAssignAll DEFAULT_PROFILE messyRaw) "goal" "mixed" ∉
        ["engine", "strength", "skill", "mixed", "power"] ∧
      enumField (objAssignAll DEFAULT_PROFILE messyRaw) "fitness_level" "intermediate" ∉
        ["beginner", "intermediate", "advanced"] ∧
      enumField (objAssignAll DEFAULT_PROFILE messyRaw) "intensity" "moderate" ∉
        ["low", "moderate", "high"] ∧
      (mergeProfile messyRaw).wod_type = some "emom" ∧
      (objGet (objAssignAll DEFAULT_PROFILE invalidWodRaw) "wod_type").getD .null =
        Json.str " Tabata " ∧
      norm " Tabata " ∉ WOD_TYPES ∧
      ((objGet (objAssignAll DEFAULT_PROFILE nonStrWodRaw) "wod_type").getD
        .null).isStr = false) ∧
    ((mergeProfile messyRaw).session_minutes = 45 ∧
      (norm "barbell" = "barbell" ∧ "barbell" ≠ "") ∧
      (mergeProfile messyRaw).goal = "mixed" ∧
      (mergeProfile messyRaw).fitness_level = "intermediate" ∧
      (mergeProfile messyRaw).intensity = "moderate" ∧
      "emom" ∈ WOD_TYPES ∧
      (mergeProfile invalidWodRaw).wod_type = none ∧
      (mergeProfile nonStrWodRaw).wod_type = none) := by
  have h := mergeProfile_normalizes messyRaw
  obtain ⟨h1, h2, h3, h4, h5, h6, h7, h8, h9, h10, h11, h12, h13, h14, h15, h16,
    h17, h18⟩ := h
  have hA := mergeProfile_normalizes invalidWodRaw
  have hB := mergeProfile_normalizes nonStrWodRaw
  refine ⟨⟨by decide, ?_, by decide, by decide, by decide, by decide, ?_, rfl,
      by decide, rfl⟩,
    ?_, ?_, ?_, ?_, ?_, ?_, ?_, ?_⟩
  · decide
  · decide
  · exact h2 (by decide)
  · exact h5 "barbell" (by decide)
  · exact h11 (by decide)
  · exact h13 (by decide)
  · exact h15 (by decide)
  · exact h16 "emom" (by decide)
  · exact hA.2.2.2.2.2.2.2.2.2.2.2.2.2.2.2.2.1 " Tabata " rfl (by decide)
  · exact hB.2.2.2.2.2.2.2.2.2.2.2.2.2.2.2.2.2 rfl

/-! # C10: non-canonical keys pass through the normalizer -/

theorem objGet_objSet_self (o : List (String × Json)) (k : String) (v : Json) :
    objGet (objSet o k v) k = some v := by
  induction o with
  | nil => simp [objSet, objGet]
  | cons kv rest ih =>
      obtain ⟨k0, v0⟩ := kv
      by_cases h : k0 = k
      · simp [objSet, objGet, h]
      · simp [objSet, objGet, h, ih]

theorem objGet_objSet_other (o : List (String × Json)) {k k' : String} (v : Json)
    (h : k' ≠ k) : objGet (objSet o k v) k' = objGet o k' := by
  have h2 : ¬ k = k' := fun he => h he.symm
  induction o with
  | nil => simp [objSet, objGet, h2]
  | cons kv rest ih =>
      obtain ⟨k0, v0⟩ := kv
      by_cases h0 : k0 = k
      · subst h0
        simp [objSet, objGet, h2]
      · by_cases h1 : k0 = k'
        · simp [objSet, objGet, h0, h1, h, h2]
        · simp [objSet, objGet, h0, h1, ih]

theorem objGet_objAssignAll (raw : List (String × Json)) :
    ∀ (base : List (String × Json)) (k : String),
    objGet (objAssignAll base raw) k =
      match rawLast raw k with
      | some v => some v
      | none => objGet base k := by
  induction raw with
  | nil => intro base k; rfl
  | cons kv rest ih =>
      intro base k
      obtain ⟨k0, v0⟩ := kv
      rw [objAssignAll, List.foldl_cons]
      have step : objAssignAll (objSet base k0 v0) rest =
          List.foldl (fun acc kv => objSet acc kv.1 kv.2) (objSet base k0 v0) rest := rfl
      rw [← step, ih (objSet base k0 v0) k]
      rw [rawLast]
      cases hr : rawLast rest k with
      | some w => rfl
      | none =>
          by_cases h : k0 = k
          · subst h
            simp [objGet_objSet_self]
          · simp [objGet_objSet_other base v0 (fun he => h he.symm), h]

theorem objGet_filter_noncanonical {l : List (String × Json)} {k : String}
    (hk : k ∉ canonicalKeys) :
    objGet (l.filter (fun kv => kv.1 ∉ canonicalKeys)) k = objGet l k := by
  induction l with
  | nil => rfl
  | cons kv rest ih =>
      obtain ⟨k0, v0⟩ := kv
      by_cases hP : k0 ∉ canonicalKeys
      · rw [List.filter_cons_of_pos (by simpa using hP), objGet, objGet]
        by_cases h : k0 = k
        · rw [if_pos h, if_pos h]
        · rw [if_neg h, if_neg h, ih]
      · have hPc : k0 ∈ canonicalKeys := not_not.mp hP
        have hkk : ¬ k0 = k := fun he => hk (he ▸ hPc)
        rw [List.filter_cons_of_neg (by simpa using hP), objGet, if_neg hkk, ih]

theorem objGet_DEFAULT_noncanonical {k : String} (hk : k ∉ canonicalKeys) :
    objGet DEFAULT_PROFILE k = none := by
  simp only [canonicalKeys, List.mem_cons, not_or] at hk
  obtain ⟨n1, n2, n3, n4, n5, n6, n7, n8, _⟩ := hk
  simp [DEFAULT_PROFILE, objGet, Ne.symm n1, Ne.symm n2, Ne.symm n3, Ne.symm n4,
    Ne.symm n5, Ne.symm n6, Ne.symm n7, Ne.symm n8]

theorem objGet_none_of_not_mem_keys {raw : List (String × Json)} {k : String}
    (h : k ∉ raw.map Prod.fst) : objGet raw k = none := by
  induction raw with
  | nil => rfl
  | cons kv rest ih =>
      obtain ⟨k0, v0⟩ := kv
      simp only [List.map_cons, List.mem_cons, not_or] at h
      rw [objGet, if_neg (fun he => h.1 he.symm)]
      exact ih h.2

theorem rawLast_eq_objGet {raw : List (String × Json)} {k : String}
    (h : (raw.map Prod.fst).Nodup) : rawLast raw k = objGet raw k := by
  induction raw with
  | nil => rfl
  | cons kv rest ih =>
      obtain ⟨k0, v0⟩ := kv
      rw [List.map_cons] at h
      obtain ⟨hk0, hrest⟩ := List.nodup_cons.mp h
      rw [rawLast, objGet, ih hrest]
      by_cases he : k0 = k
      · subst he
        rw [objGet_none_of_not_mem_keys hk0]
      · cases hr : objGet rest k <;> simp [he]

theorem buildPlan_ok_profile {todayOrd : Int} {profile : Profile}
    {history : List Session} {movements : List Movement} {lookbackDays : Nat}
    {seed : Int} {p : Plan}
    (hp : buildPlan todayOrd profile history movements lookbackDays seed =
      Except.ok p) : p.profile = profile := by
  rw [buildPlan] at hp
  rcases hrc : recentContext todayOrd history movements lookbackDays with ⟨recent, counter⟩
  rw [hrc] at hp
  dsimp only at hp
  by_cases he : (rankCandidates movements profile recent counter).isEmpty
  · rw [if_pos he] at hp
    cases hp
  · rw [if_neg he] at hp
    rcases hw : buildWarmup (rankCandidates movements profile recent counter)
        (SeededRng.ofSeed seed) []
        (sessionBlockLengths profile.session_minutes).warmup with ⟨warmup, rng1, used1⟩
    rw [hw] at hp
    dsimp only at hp
    rcases hs : buildStrengthOrSkillBlock (rankCandidates movements profile recent counter)
        rng1 used1 profile (sessionBlockLengths profile.session_minutes).strength with
      ⟨strengthOrSkill, rng2, used2⟩
    rw [hs] at hp
    dsimp only at hp
    cases hmet : buildMetcon (rankCandidates movements profile recent counter)
        rng2 used2 profile (sessionBlockLengths profile.session_minutes).metcon with
    | error e =>
        rw [hmet] at hp
        cases hp
    | ok trip =>
        rcases trip with ⟨metcon, rng3, used3⟩
        rw [hmet] at hp
        dsimp only at hp
        rcases hc : buildCooldown movements rng3
            (sessionBlockLengths profile.session_minutes).cooldown with ⟨cooldown, rng4⟩
        rw [hc] at hp
        dsimp only at hp
        have := Except.ok.inj hp
        rw [← this]

/-- C10.  The normalizer first copies every raw key/value pair onto the
profile object, so a key outside the canonical schema passes through
unchanged into the normalized profile's extra entries (only the canonical
keys are rewritten), and the profile — extras included — is stored verbatim
in the `profile` field of every plan the builder returns. -/
theorem mergeProfile_extra_passthrough (raw : List (String × Json)) (k : String)
    (hnodup : (raw.map Prod.fst).Nodup) (hk : k ∉ canonicalKeys) :
    objGet (mergeProfile raw).extra k = objGet raw k ∧
    (∀ (todayOrd : Int) (history : List Session) (movements : List Movement)
      (lookbackDays : Nat) (seed : Int) (p : Plan),
      buildPlan todayOrd (mergeProfile raw) history movements lookbackDays seed =
        Except.ok p → p.profile = mergeProfile raw) := by
  constructor
  · have hextra : (mergeProfile raw).extra =
        (objAssignAll DEFAULT_PROFILE raw).filter (fun kv => kv.1 ∉ canonicalKeys) := rfl
    rw [hextra, objGet_filter_noncanonical hk, objGet_objAssignAll,
      rawLast_eq_objGet hnodup]
    cases hr : objGet raw k with
    | some v => rfl
    | none => exact objGet_DEFAULT_noncanonical hk
  · intro todayOrd history movements lookbackDays seed p hp
    exact buildPlan_ok_profile hp

/-- Witness for C10: the `coach_notes` key survives normalization verbatim
and reaches the profile field of a successfully built plan. -/
theorem mergeProfile_extra_passthrough_witness :
    ((extraRaw.map Prod.fst).Nodup ∧ "coach_notes" ∉ canonicalKeys ∧
      buildPlan 20000 (mergeProfile extraRaw) [] fallbackClashLib 2 1 =
        Except.ok planWithExtra) ∧
    (objGet (mergeProfile extraRaw).extra "coach_notes" =
        objGet extraRaw "coach_notes" ∧
      planWithExtra.profile = mergeProfile extraRaw) :=
  ⟨⟨by decide, by decide, by rfl⟩,
    (mergeProfile_extra_passthrough extraRaw "coach_notes" (by decide) (by decide)).1,
    (mergeProfile_extra_passthrough extraRaw "coach_notes" (by decide) (by decide)).2
      20000 [] fallbackClashLib 2 1 planWithExtra (by rfl)⟩

end Wod
